import Mathlib

/-!
Verification of the Energy Made Easy scraper (`scraper_enhanced.py`).

The Python source is shallowly embedded: JSON-shaped records become Lean
structures with `Option`/`List` fields (a missing key is `none` / `[]`),
Python numbers become exact rationals `ℚ`, Python strings become `List Char`,
and code that can raise becomes `Except PyErr`-valued.  Definitions follow
the source functions line by line and keep their names.
-/

namespace Scraper

/-- The exception-style failures the Python code can raise on malformed
plans.  `keyError` and `indexError` mirror Python's raw lookup failures.
`malformedPlan` is modelled from the spec: the spec's error taxonomy names a
`MalformedPlanError` carrying a plan display name, but no such class exists
anywhere in the source. -/
inductive PyErr where
  | keyError (key : String)
  | indexError (msg : String)
  | malformedPlan (planName : String)
deriving DecidableEq, Repr

/-- One `blockRate` entry of a tariff period / TOU block. -/
structure BlockRate where
  unitPrice : ℚ
deriving DecidableEq, Repr

/-- One `touBlock` entry of a tariff period. -/
structure TouBlock where
  blockRate : List BlockRate
deriving DecidableEq, Repr

/-- One `tariffPeriod` entry of a contract.  The code only ever asks whether
the `demandCharge` list is non-empty, so its entries are `Unit`; a missing
`demandCharge` key behaves exactly like an empty list there. -/
structure TariffPeriod where
  dailySupplyCharge : Option ℚ
  touBlock : List TouBlock
  blockRate : List BlockRate
  demandCharge : List Unit
deriving DecidableEq, Repr

/-- One entry of a solar FIT's `singleTariffRates` list. -/
structure SingleTariffRate where
  unitPrice : Option ℚ
  volume : Option ℚ
deriving DecidableEq, Repr

/-- One `solarFit` entry of a contract. -/
structure SolarFit where
  type : Option String
  rate : Option ℚ
  singleTariffRates : List SingleTariffRate
deriving DecidableEq, Repr

/-- One `controlledLoad` entry.  The claims' code paths only test whether the
controlled-load list is non-empty. -/
structure ControlledLoad where
  mk' ::
deriving DecidableEq, Repr

/-- A plan contract as consumed by the extraction helpers. -/
structure Contract where
  pricingModel : Option String
  tariffPeriod : List TariffPeriod
  solarFit : List SolarFit
  controlledLoad : List ControlledLoad
deriving DecidableEq, Repr

/-- The `planData` object of a raw plan. -/
structure PlanData where
  contract : List Contract
  fuelType : Option String
  planName : Option String
deriving DecidableEq, Repr

/-- A raw plan record as returned by the plans API. -/
structure RawPlan where
  planData : Option PlanData
deriving DecidableEq, Repr

/-- `GST_MULTIPLIER = 1.1` from the source. -/
def GST_MULTIPLIER : ℚ := 11 / 10

/-- Python's `round(x, 2)`: round to two decimal places. -/
def round2 (q : ℚ) : ℚ := (round (q * 100) : ℚ) / 100

/-- `extract_supply_charge`: daily supply charge of the first tariff period,
times GST, rounded to two decimals; `none` when absent. -/
def extract_supply_charge (contract : Contract) : Option ℚ :=
  match contract.tariffPeriod with
  | [] => none
  | tp :: _ =>
    match tp.dailySupplyCharge with
    | none => none
    | some charge => some (round2 (charge * GST_MULTIPLIER))

/-- `_collect_usage_rates`: all usage rates of the first tariff period
(inc. GST, rounded); TOU plans read every block rate of every TOU block,
others read the period's own block rates. -/
def collect_usage_rates (contract : Contract) : List ℚ :=
  match contract.tariffPeriod with
  | [] => []
  | tp :: _ =>
    if contract.pricingModel.getD "SR" = "TOU" then
      (tp.touBlock.map (fun block =>
        block.blockRate.map (fun br => round2 (br.unitPrice * GST_MULTIPLIER)))).flatten
    else
      tp.blockRate.map (fun br => round2 (br.unitPrice * GST_MULTIPLIER))

/-- `_collect_solar_fit_rates`: all positive retailer (non-`"G"`) feed-in
rates, either the flat `rate` field or the `singleTariffRates` unit prices. -/
def collect_solar_fit_rates (contract : Contract) : List ℚ :=
  ((contract.solarFit.map (fun fit =>
      if fit.type = some "G" then []
      else
        match fit.rate with
        | some rate => [rate]
        | none => fit.singleTariffRates.map (fun sr => sr.unitPrice.getD 0))).flatten).filter
    (fun r => 0 < r)

/-- `extract_solar_fit_min`. -/
def extract_solar_fit_min (contract : Contract) : ℚ :=
  match (collect_solar_fit_rates contract).min? with
  | some m => round2 m
  | none => 0

/-- `extract_solar_fit_max`. -/
def extract_solar_fit_max (contract : Contract) : ℚ :=
  match (collect_solar_fit_rates contract).max? with
  | some m => round2 m
  | none => 0

/-! Raw (pre-extraction) views of the same contract data, used to state the
GST claim: the same traversals as the extraction helpers, but reading the
ex-GST values verbatim. -/

/-- The raw daily supply charge of the first tariff period, ex-GST. -/
def rawSupplyCharge (contract : Contract) : Option ℚ :=
  match contract.tariffPeriod with
  | [] => none
  | tp :: _ => tp.dailySupplyCharge

/-- The raw ex-GST usage rates, in extraction order. -/
def rawUsageRates (contract : Contract) : List ℚ :=
  match contract.tariffPeriod with
  | [] => []
  | tp :: _ =>
    if contract.pricingModel.getD "SR" = "TOU" then
      (tp.touBlock.map (fun block => block.blockRate.map (fun br => br.unitPrice))).flatten
    else
      tp.blockRate.map (fun br => br.unitPrice)

/-- The raw retailer feed-in rates, in collection order, before the
positivity filter. -/
def rawSolarRates (contract : Contract) : List ℚ :=
  (contract.solarFit.map (fun fit =>
      if fit.type = some "G" then []
      else
        match fit.rate with
        | some rate => [rate]
        | none => fit.singleTariffRates.map (fun sr => sr.unitPrice.getD 0))).flatten

/-! Decimal numerals.  Python renders the JSON numbers with `str`/f-strings
and reads them back with `float`.  Numbers are embedded as exact rationals,
so `str` is modelled as exact decimal rendering (`numStr`) of rationals with
a finite decimal expansion, and `float` as exact decimal parsing
(`parseNum`) of digits-and-dot strings, the only shape the tier regex can
hand it. -/

/-- The character for a single decimal digit. -/
def digitChar (d : ℕ) : Char := Char.ofNat (48 + d)

/-- The numeric value of a digit character. -/
def charVal (c : Char) : ℕ := c.toNat - 48

/-- Little-endian base-10 digits, driven by explicit fuel so that it is
structurally recursive. -/
def natDigitsAux : ℕ → ℕ → List ℕ
  | 0, _ => []
  | _ + 1, 0 => []
  | fuel + 1, n + 1 => ((n + 1) % 10) :: natDigitsAux fuel ((n + 1) / 10)

/-- Little-endian base-10 digits of a natural number (empty for zero). -/
def natDigits (n : ℕ) : List ℕ := natDigitsAux n n

/-- Decimal rendering of a natural number (big-endian, `"0"` for zero). -/
def natStr (n : ℕ) : List Char :=
  if n = 0 then ['0'] else (natDigits n).reverse.map digitChar

/-- Exactly `k` fractional digits for `m < 10 ^ k`, left-padded with zeros. -/
def fracStr (k m : ℕ) : List Char :=
  ((natDigits m ++ List.replicate (k - (natDigits m).length) 0).reverse).map digitChar

/-- The least `k ≤ 12` such that `q * 10 ^ k` is an integer, when one
exists. -/
def decExp (q : ℚ) : Option ℕ :=
  (List.range 13).find? (fun k => (q * 10 ^ k).den == 1)

/-- A rational that renders as a plain nonnegative decimal numeral. -/
def IsDec (q : ℚ) : Prop := 0 ≤ q ∧ (q * 10 ^ 12).den = 1

instance (q : ℚ) : Decidable (IsDec q) := by unfold IsDec; infer_instance

/-- The digits of `q` once the decimal exponent `k` is known. -/
def numStrAux (q : ℚ) (k : ℕ) : List Char :=
  if k = 0 then natStr ((q * 10 ^ k).num.toNat)
  else natStr ((q * 10 ^ k).num.toNat / 10 ^ k) ++ '.' ::
    fracStr k ((q * 10 ^ k).num.toNat % 10 ^ k)

/-- Decimal rendering of a nonnegative rational with finite decimal
expansion (the embedding of Python's `str` on these numbers). -/
def numStr (q : ℚ) : List Char :=
  match decExp q with
  | none => ['?']
  | some k => numStrAux q k

/-- The numeric value of a big-endian digit string. -/
def digitsVal (s : List Char) : ℕ := Nat.ofDigits 10 (s.reverse.map charVal)

/-- The character class `[\d.]` of the tier regex. -/
def isDigitDot (c : Char) : Bool := c.isDigit || c == '.'

/-- The embedding of Python's `float` on digit/dot strings: defined exactly
when the string is a valid decimal numeral (at least one digit, at most one
dot); `none` models the `ValueError` that `float` raises otherwise. -/
def parseNum (s : List Char) : Option ℚ :=
  if s.all isDigitDot ∧ s.countP (fun c => c == '.') ≤ 1 ∧ s.any Char.isDigit then
    let ip := s.takeWhile (fun c => c ≠ '.')
    let fr := (s.dropWhile (fun c => c ≠ '.')).drop 1
    some ((digitsVal ip : ℚ) + (digitsVal fr : ℚ) / 10 ^ fr.length)
  else none

/-- The regex class `\s` (whitespace) for the strings at hand. -/
def isSpc (c : Char) : Bool :=
  c == ' ' || c == '\t' || c == '\n' || c == '\r' || c == '\x0b' || c == '\x0c'

/-- Python's `str.strip()`. -/
def strip (s : List Char) : List Char :=
  ((s.dropWhile isSpc).reverse.dropWhile isSpc).reverse

/-- Matching a literal: consumes `lit` from the front of `s`. -/
def matchLit : List Char → List Char → Option (List Char)
  | [], s => some s
  | _ :: _, [] => none
  | a :: as, b :: bs => if a = b then matchLit as bs else none

/-- The sentinel details string used when a plan has no retailer FIT. -/
def NO_SOLAR : List Char := "No solar feed-in tariff".data

/-- Semicolon-space joining, Python's `"; ".join`. -/
def joinSemi : List (List Char) → List Char
  | [] => []
  | [p] => p
  | p :: ps => p ++ ';' :: ' ' :: joinSemi ps

/-- Splitting on the two-character separator `"; "`, Python's
`str.split("; ")`: leftmost-first, non-overlapping. -/
def splitSemi : List Char → List (List Char)
  | [] => [[]]
  | [c] => [[c]]
  | c1 :: c2 :: rest =>
    if c1 = ';' ∧ c2 = ' ' then [] :: splitSemi rest
    else
      match splitSemi (c2 :: rest) with
      | [] => [[c1]]
      | h :: t => (c1 :: h) :: t

/-- The clause strings accumulated by the loop of
`extract_solar_fit_details`: one clause per retailer (non-`"G"`)
`singleTariffRates` entry with positive price; a positive volume renders
the capped clause, otherwise the flat clause. -/
def fitClauses (contract : Contract) : List (List Char) :=
  (contract.solarFit.map (fun fit =>
    if fit.type = some "G" then []
    else
      fit.singleTariffRates.filterMap (fun sr =>
        let price := sr.unitPrice.getD 0
        let volume := sr.volume.getD 0
        if 0 < price then
          some (if 0 < volume then
                  numStr price ++ "c/kWh (first ".data ++ numStr volume ++ "kWh/day)".data
                else numStr price ++ "c/kWh".data)
        else none))).flatten

/-- `extract_solar_fit_details`: the human-readable tier summary, the
sentinel when there is no solar FIT entry at all or no qualifying clause. -/
def extract_solar_fit_details (contract : Contract) : List Char :=
  if contract.solarFit.isEmpty then NO_SOLAR
  else if (fitClauses contract).isEmpty then NO_SOLAR
  else joinSemi (fitClauses contract)

/-- The structured `(rate, cap)` pairs the details formatter encodes, in
formatting order: positive-price entries of retailer fits, a non-positive
volume meaning "uncapped" (`0`). -/
def formatterTiers (contract : Contract) : List (ℚ × ℚ) :=
  (contract.solarFit.map (fun fit =>
    if fit.type = some "G" then []
    else
      fit.singleTariffRates.filterMap (fun sr =>
        let price := sr.unitPrice.getD 0
        let volume := sr.volume.getD 0
        if 0 < price then some (price, if 0 < volume then volume else 0)
        else none))).flatten

/-- The regex `([\d.]+)c/kWh(?:\s*\(first\s+([\d.]+)kWh/day\))?` applied
with `re.match` (prefix match).  Character classes here are disjoint from
the literal that follows them, so the greedy maximal-munch scan below is
exactly the regex's backtracking semantics.  Returns the two captured
groups. -/
def matchClause (s : List Char) : Option (List Char × Option (List Char)) :=
  let g1 := s.takeWhile isDigitDot
  let r1 := s.dropWhile isDigitDot
  if g1.isEmpty then none
  else
    match matchLit "c/kWh".data r1 with
    | none => none
    | some r2 =>
      let r3 := r2.dropWhile isSpc
      match matchLit "(first".data r3 with
      | none => some (g1, none)
      | some r4 =>
        let w2 := r4.takeWhile isSpc
        let r5 := r4.dropWhile isSpc
        if w2.isEmpty then some (g1, none)
        else
          let g2 := r5.takeWhile isDigitDot
          let r6 := r5.dropWhile isDigitDot
          if g2.isEmpty then some (g1, none)
          else
            match matchLit "kWh/day)".data r6 with
            | none => some (g1, none)
            | some _ => some (g1, some g2)

/-- One loop iteration of `_parse_solar_fit_tiers` over a split part: outer
`none` is a `float` `ValueError` crash, inner `none` a non-matching part
that is skipped. -/
def parseTierPart (part : List Char) : Option (Option (ℚ × ℚ)) :=
  match matchClause (strip part) with
  | none => some none
  | some (g1, g2o) =>
    match parseNum g1 with
    | none => none
    | some rate =>
      match g2o with
      | none => some (some (rate, 0))
      | some g2 =>
        match parseNum g2 with
        | none => none
        | some volume => some (some (rate, volume))

/-- The collection loop of `_parse_solar_fit_tiers` over the split parts. -/
def parseParts : List (List Char) → Option (List (ℚ × ℚ))
  | [] => some []
  | p :: ps =>
    match parseTierPart p with
    | none => none
    | some none => parseParts ps
    | some (some t) => (parseParts ps).map (t :: ·)

/-- The sort key comparison of `tiers.sort(key=lambda t: (t[1] == 0, -t[1]))`:
ascending lexicographic on `(volume == 0, -volume)`. -/
def tierLE (a b : ℚ × ℚ) : Bool :=
  let ka : ℕ := if a.2 = 0 then 1 else 0
  let kb : ℕ := if b.2 = 0 then 1 else 0
  ka < kb || (ka == kb && b.2 ≤ a.2)

/-- Stable insertion used by `sortTiers`: an element is placed before the
first existing element its key is less than or equal to, so earlier
elements with equal keys stay first, as in Python's stable sort. -/
def insertTier (x : ℚ × ℚ) : List (ℚ × ℚ) → List (ℚ × ℚ)
  | [] => [x]
  | y :: ys => if tierLE x y then x :: y :: ys else y :: insertTier x ys

/-- The final sort of `_parse_solar_fit_tiers`: capped tiers first
(descending volume), uncapped tiers last; stable like Python's sort, and
realised as a stable insertion sort. -/
def sortTiers : List (ℚ × ℚ) → List (ℚ × ℚ)
  | [] => []
  | t :: ts => insertTier t (sortTiers ts)

/-- `_parse_solar_fit_tiers` on the details string of a processed plan;
`none` models the `float` crash on a degenerate numeral, which no
well-formed clause triggers. -/
def parse_solar_fit_tiers (details : List Char) : Option (List (ℚ × ℚ)) :=
  if details = [] ∨ details = NO_SOLAR then some []
  else (parseParts (splitSemi details)).map sortTiers

/-! The calculator sheet's per-plan solar credit.  `_write_calculator_sheet`
derives three constants from the parsed tiers and emits the Excel formula
`MIN(export,cap)*rate1+MAX(export-cap,0)*rate2` when `fit_tier1_vol > 0`
and `export*rate1` otherwise; the embedding evaluates that formula. -/

/-- The `(fit_tier1_rate, fit_tier1_vol, fit_tier2_rate)` constants chosen
by `_write_calculator_sheet` from the parsed tier list: with two or more
tiers the first two are used; with exactly one tier its rate is used and
the volume is forced to `0` (treated as flat); with none, all zero. -/
def fitConstants (tiers : List (ℚ × ℚ)) : ℚ × ℚ × ℚ :=
  match tiers with
  | t1 :: t2 :: _ => (t1.1, t1.2, t2.1)
  | [t1] => (t1.1, 0, 0)
  | [] => (0, 0, 0)

/-- The daily solar credit the calculator row computes for the given parsed
tiers and daily export. -/
def solarCreditPerDay (tiers : List (ℚ × ℚ)) (exportKwh : ℚ) : ℚ :=
  let c := fitConstants tiers
  if 0 < c.2.1 then
    min exportKwh c.2.1 * c.1 + max (exportKwh - c.2.1) 0 * c.2.2
  else exportKwh * c.1

/-- Modelled from the spec's words, for comparison with the code (claim C3):
the credit is tiered whenever the first parsed tier has a positive cap,
using the second tier's rate (or `0` when there is no second tier), and
flat otherwise. -/
def specSolarCredit (tiers : List (ℚ × ℚ)) (exportKwh : ℚ) : ℚ :=
  match tiers with
  | [] => exportKwh * 0
  | (r1, cap) :: rest =>
    if 0 < cap then
      min exportKwh cap * r1 + max (exportKwh - cap) 0 * ((rest.head?.map Prod.fst).getD 0)
    else exportKwh * r1

/-! The plan filter. -/

/-- `plan_has_demand_charge`: raises a raw lookup failure when `planData`
is missing or the contract list is empty, otherwise reports whether any
tariff period has a non-empty demand-charge list. -/
def plan_has_demand_charge (plan : RawPlan) : Except PyErr Bool :=
  match plan.planData with
  | none => .error (.keyError "planData")
  | some pd =>
    match pd.contract with
    | [] => .error (.indexError "list index out of range")
    | contract :: _ =>
      .ok (contract.tariffPeriod.any (fun tp => !tp.demandCharge.isEmpty))

/-- `plan_has_controlled_load`: same lookups, then whether the primary
contract's controlled-load list is non-empty. -/
def plan_has_controlled_load (plan : RawPlan) : Except PyErr Bool :=
  match plan.planData with
  | none => .error (.keyError "planData")
  | some pd =>
    match pd.contract with
    | [] => .error (.indexError "list index out of range")
    | contract :: _ => .ok (!contract.controlledLoad.isEmpty)

/-- The stats dictionary `filter_plans` returns. -/
structure FilterStats where
  total : ℕ
  demand_filtered : ℕ
  controlled_load_filtered : ℕ
  kept : ℕ
deriving DecidableEq, Repr

/-- The loop body of `filter_plans`: the demand gate is tested first (only
when `include_demand` is off, by Python's `and` short-circuit), then the
controlled-load gate; a raised lookup failure aborts the whole loop. -/
def filterLoop (icl idem : Bool) : List RawPlan → Except PyErr (List RawPlan × ℕ × ℕ)
  | [] => .ok ([], 0, 0)
  | p :: ps =>
    match (if idem then .ok false else plan_has_demand_charge p) with
    | .error e => .error e
    | .ok true =>
      match filterLoop icl idem ps with
      | .error e => .error e
      | .ok (f, d, c) => .ok (f, d + 1, c)
    | .ok false =>
      match (if icl then .ok false else plan_has_controlled_load p) with
      | .error e => .error e
      | .ok true =>
        match filterLoop icl idem ps with
        | .error e => .error e
        | .ok (f, d, c) => .ok (f, d, c + 1)
      | .ok false =>
        match filterLoop icl idem ps with
        | .error e => .error e
        | .ok (f, d, c) => .ok (p :: f, d, c)

/-- `filter_plans`: filtered list plus stats; `total` is the input length
and `kept` the output length. -/
def filter_plans (plans : List RawPlan) (include_controlled_load include_demand : Bool) :
    Except PyErr (List RawPlan × FilterStats) := do
  let (f, d, c) ← filterLoop include_controlled_load include_demand plans
  pure (f, ⟨plans.length, d, c, f.length⟩)

/-! Plan processing (`process_plan`) and the processing loop of `main`. -/

/-- The fields of the flat row `process_plan` builds that the claims
consult. -/
structure PlanRow where
  planName : String
  pricingModel : String
  supplyCharge : Option ℚ
  solarFitMin : ℚ
  solarFitMax : ℚ
  solarFitDetails : List Char
deriving DecidableEq, Repr

/-- `process_plan`: fails with the raw lookup failures of
`plan["planData"]`, `plan_data["contract"][0]` and `plan_data["fuelType"]`
(in source order) on a malformed plan; otherwise builds the flat row. -/
def process_plan (plan : RawPlan) : Except PyErr PlanRow :=
  match plan.planData with
  | none => .error (.keyError "planData")
  | some plan_data =>
    match plan_data.contract with
    | [] => .error (.indexError "list index out of range")
    | contract :: _ =>
      match plan_data.fuelType with
      | none => .error (.keyError "fuelType")
      | some _ =>
        .ok
          { planName := plan_data.planName.getD ""
            pricingModel := contract.pricingModel.getD ""
            supplyCharge := extract_supply_charge contract
            solarFitMin := extract_solar_fit_min contract
            solarFitMax := extract_solar_fit_max contract
            solarFitDetails := extract_solar_fit_details contract }

/-- Step 4 of `main`: each plan is processed under a blanket `except`; a
failing plan is skipped and the error counter incremented, and processing
continues with the rest. -/
def processLoop : List RawPlan → List PlanRow × ℕ
  | [] => ([], 0)
  | p :: ps =>
    let rest := processLoop ps
    match process_plan p with
    | .ok row => (row :: rest.1, rest.2)
    | .error _ => (rest.1, rest.2 + 1)

/-! Distributor selection. -/

/-- A discovered distributor: `id` and display `name`. -/
structure Dist where
  id : String
  name : String
deriving DecidableEq, Repr

/-- A selected distributor as `main` consumes it; `plan_count` is attached
only on probed entries. -/
structure SelDist where
  id : String
  name : String
  plan_count : Option ℤ
deriving DecidableEq, Repr

/-- The probing loop shared by interactive selection and the `--dist all`
branch: keep exactly the distributors whose probe returns a count `> 0`;
a count of `0` or the `-1` error sentinel is skipped.  `probe` gives the
result of `probe_distributor_plans` for each distributor id. -/
def availableOf (ds : List Dist) (probe : String → ℤ) : List SelDist :=
  ds.filterMap (fun d =>
    if 0 < probe d.id then some ⟨d.id, d.name, some (probe d.id)⟩ else none)

/-- `select_distributor_interactive`: no distributors → empty selection;
one → auto-selected without probing; several → probe all, fail to an empty
selection when none is available, auto-select a sole available one, and
otherwise defer to the interactive prompt, modelled as the `choose`
argument. -/
def select_distributor_interactive (ds : List Dist) (probe : String → ℤ)
    (choose : List SelDist → List SelDist) : List SelDist :=
  match ds with
  | [] => []
  | [d] => [⟨d.id, d.name, none⟩]
  | _ =>
    let available := availableOf ds probe
    if available.isEmpty then []
    else if available.length = 1 then available
    else choose available

/-- The `--dist all` branch of `main`: probe every discovered distributor
and, when none returns plans, fall back to a single pseudo-distributor with
an empty id so that the fetch proceeds unscoped. -/
def selectDistAll (ds : List Dist) (probe : String → ℤ) : List SelDist :=
  let selected := availableOf ds probe
  if selected.isEmpty then [⟨"", "Auto", some 0⟩] else selected

/-- The guard after step 2 of `main`: an empty selection prints an error
and exits; fetching proceeds exactly when the selection is non-empty. -/
def mainGuardExits (selected : List SelDist) : Bool := selected.isEmpty

/-- A raw plan whose shape violates the extraction assumptions: the
`planData` key is missing, or the contract list is empty. -/
def Malformed (p : RawPlan) : Prop :=
  p.planData = none ∨ ∃ pd, p.planData = some pd ∧ pd.contract = []

/-- Whether an error is a raw lookup failure (a Python `KeyError` or
`IndexError`), as opposed to the spec's `MalformedPlanError`. -/
def isRawLookup : PyErr → Bool
  | .keyError _ => true
  | .indexError _ => true
  | .malformedPlan _ => false

/-- A contract with the government/legacy solar FIT entries removed, used
to state that they contribute nothing. -/
def removeG (c : Contract) : Contract :=
  { c with solarFit := c.solarFit.filter (fun fit => fit.type ≠ some "G") }

/-! Clause grammar.  The spec describes the details text as a
semicolon-joined sequence of clauses `"<rate>c/kWh"` or
`"<rate>c/kWh (first <cap>kWh/day)"`; `clauseStr` renders one clause from
its numeral strings, and `ClauseDenotes` says which `(rate, cap)` pair a
clause stands for. -/

/-- A numeral string denoting the rational `q` (in the sense of the
embedded `float`). -/
def Numeral (s : List Char) (q : ℚ) : Prop := parseNum s = some q

/-- One clause of the details grammar, from a rate numeral and an optional
cap numeral. -/
def clauseStr : List Char × Option (List Char) → List Char
  | (rs, none) => rs ++ "c/kWh".data
  | (rs, some cs) => rs ++ "c/kWh (first ".data ++ cs ++ "kWh/day)".data

/-- The `(rate, cap)` pair a clause stands for: a flat clause has cap `0`. -/
def ClauseDenotes : List Char × Option (List Char) → ℚ × ℚ → Prop
  | (rs, none), (r, v) => Numeral rs r ∧ v = 0
  | (rs, some cs), (r, v) => Numeral rs r ∧ Numeral cs v

/-- The clause the details formatter renders for one `(rate, cap)` pair. -/
def tierClause (t : ℚ × ℚ) : List Char :=
  clauseStr (numStr t.1, if t.2 = 0 then none else some (numStr t.2))

/-- The tier ordering the spec demands of parsed tiers: capped tiers first
in descending cap order, uncapped (cap `= 0`) tiers last. -/
def TierOrd (a b : ℚ × ℚ) : Prop :=
  (a.2 ≠ 0 ∧ b.2 = 0) ∨ (a.2 ≠ 0 ∧ b.2 ≠ 0 ∧ b.2 ≤ a.2) ∨ (a.2 = 0 ∧ b.2 = 0)

/-! Concrete fixtures used by witnesses and counterexamples. -/

/-- A contract with a single retailer FIT tier: 7 c/kWh for the first
2 kWh/day. -/
def oneTierContract : Contract := ⟨none, [], [⟨some "R", none, [⟨some 7, some 2⟩]⟩], []⟩

/-- A well-formed raw plan that fails both filter gates: one tariff period
with a demand charge, and a non-empty controlled-load list. -/
def demandCLPlan : RawPlan :=
  ⟨some ⟨[⟨some "SR", [⟨none, [], [], [()]⟩], [], [⟨⟩]⟩], some "E", some "Both Gates"⟩⟩

/-- A well-formed raw plan kept by every filter setting. -/
def plainPlan : RawPlan :=
  ⟨some ⟨[⟨some "SR", [⟨some 90, [], [⟨25⟩], []⟩], [], []⟩], some "E", some "Plain"⟩⟩

/-- A raw plan with no `planData` key. -/
def noDataPlan : RawPlan := ⟨none⟩

/-- A contract whose only feed-in entry is a government one at rate 44. -/
def gov44Contract : Contract := ⟨none, [], [⟨some "G", some 44, []⟩], []⟩

/-! ### Claim C1: the GST multiplier -/

/--
C1: for every contract, each extracted usage rate and the extracted daily
supply charge equal `round(r * 1.1, 2)` of the corresponding raw ex-GST
value `r`, while the solar feed-in rates feeding `solarFitMin`/`solarFitMax`
are the raw values (only filtered for positivity), with no GST multiplier.
-/
theorem gst_applied_to_rates_not_solar (c : Contract) :
    collect_usage_rates c = (rawUsageRates c).map (fun r => round2 (r * GST_MULTIPLIER)) ∧
    extract_supply_charge c = (rawSupplyCharge c).map (fun r => round2 (r * GST_MULTIPLIER)) ∧
    collect_solar_fit_rates c = (rawSolarRates c).filter (fun r => 0 < r) := by
  obtain ⟨pm, tps, sf, cl⟩ := c
  refine ⟨?_, ?_, ?_⟩
  · unfold collect_usage_rates rawUsageRates
    cases tps with
    | nil => rfl
    | cons tp rest =>
      obtain ⟨dsc, tb, br, dc⟩ := tp
      by_cases h : pm.getD "SR" = "TOU" <;>
        simp [h, List.map_flatten, List.map_map, Function.comp_def]
  · unfold extract_supply_charge rawSupplyCharge
    cases tps with
    | nil => rfl
    | cons tp rest =>
      obtain ⟨dsc, tb, br, dc⟩ := tp
      cases dsc <;> rfl
  · rfl

/-! ### Claim C2: filter stats partition the batch -/

/-- The count invariant of the filter loop. -/
theorem filterLoop_counts (icl idem : Bool) :
    ∀ (plans f : List RawPlan) (d c : ℕ),
      filterLoop icl idem plans = .ok (f, d, c) → f.length + d + c = plans.length := by
  intro plans
  induction plans with
  | nil =>
    intro f d c h
    simp only [filterLoop, Except.ok.injEq, Prod.mk.injEq] at h
    obtain ⟨h1, h2, h3⟩ := h
    simp [← h1, ← h2, ← h3]
  | cons p ps ih =>
    intro f d c h
    rw [filterLoop] at h
    cases hdem : (if idem then (Except.ok false : Except PyErr Bool)
        else plan_has_demand_charge p) with
    | error e => rw [hdem] at h; cases h
    | ok b =>
      rw [hdem] at h
      cases b with
      | true =>
        cases hrec : filterLoop icl idem ps with
        | error e => rw [hrec] at h; cases h
        | ok t =>
          obtain ⟨f', d', c'⟩ := t
          rw [hrec] at h
          simp only [Except.ok.injEq, Prod.mk.injEq] at h
          obtain ⟨h1, h2, h3⟩ := h
          have := ih f' d' c' hrec
          simp [← h1, ← h2, ← h3]
          omega
      | false =>
        cases hcl : (if icl then (Except.ok false : Except PyErr Bool)
            else plan_has_controlled_load p) with
        | error e => rw [hcl] at h; cases h
        | ok b2 =>
          rw [hcl] at h
          cases b2 with
          | true =>
            cases hrec : filterLoop icl idem ps with
            | error e => rw [hrec] at h; cases h
            | ok t =>
              obtain ⟨f', d', c'⟩ := t
              rw [hrec] at h
              simp only [Except.ok.injEq, Prod.mk.injEq] at h
              obtain ⟨h1, h2, h3⟩ := h
              have := ih f' d' c' hrec
              simp [← h1, ← h2, ← h3]
              omega
          | false =>
            cases hrec : filterLoop icl idem ps with
            | error e => rw [hrec] at h; cases h
            | ok t =>
              obtain ⟨f', d', c'⟩ := t
              rw [hrec] at h
              simp only [Except.ok.injEq, Prod.mk.injEq] at h
              obtain ⟨h1, h2, h3⟩ := h
              have := ih f' d' c' hrec
              simp [← h1, ← h2, ← h3]
              omega

/--
C2: whenever the filter returns, its stats satisfy
`kept + demandFiltered + controlledLoadFiltered = total`, with `total` the
input length and `kept` the length of the returned list; and a plan that
fails both gates is excluded once, counted under the demand gate.
-/
theorem filter_stats_partition (plans : List RawPlan) (icl idem : Bool)
    (kept : List RawPlan) (stats : FilterStats)
    (h : filter_plans plans icl idem = .ok (kept, stats)) :
    (stats.kept + stats.demand_filtered + stats.controlled_load_filtered = stats.total ∧
     stats.total = plans.length ∧ stats.kept = kept.length) ∧
    ∀ p : RawPlan, plan_has_demand_charge p = .ok true →
      plan_has_controlled_load p = .ok true →
      filter_plans [p] false false = .ok ([], ⟨1, 1, 0, 0⟩) := by
  constructor
  · cases hfl : filterLoop icl idem plans with
    | error e => simp [filter_plans, hfl] at h
    | ok t =>
      obtain ⟨f, d, c⟩ := t
      have hc := filterLoop_counts icl idem plans f d c hfl
      simp only [filter_plans, hfl, bind, Except.bind, pure, Except.pure,
        Except.ok.injEq, Prod.mk.injEq] at h
      obtain ⟨h1, h2⟩ := h
      subst h1 h2
      refine ⟨by simpa using hc.symm ▸ hc, rfl, rfl⟩
  · intro p h1 h2
    simp [filter_plans, filterLoop, h1, h2, bind, Except.bind, pure, Except.pure]

/-- Witness for C2 at a concrete batch: one plan failing both gates. -/
theorem filter_stats_partition_witness :
    (FilterStats.mk 1 1 0 0).kept + (FilterStats.mk 1 1 0 0).demand_filtered +
        (FilterStats.mk 1 1 0 0).controlled_load_filtered = (FilterStats.mk 1 1 0 0).total ∧
    (FilterStats.mk 1 1 0 0).total = [demandCLPlan].length ∧
    (FilterStats.mk 1 1 0 0).kept = ([] : List RawPlan).length :=
  (filter_stats_partition [demandCLPlan] false false [] ⟨1, 1, 0, 0⟩
    (by simp [filter_plans, filterLoop, plan_has_demand_charge, plan_has_controlled_load,
      demandCLPlan, bind, Except.bind, pure, Except.pure])).1

/-! ### Claim C3: the calculator's solar credit formula -/

/--
C3 counterexample: the details string "10c/kWh (first 8kWh/day)" parses to
the single capped tier `(10, 8)`; its first parsed tier has cap `8 > 0`,
but the code computes the flat credit `export * 10 = 120` at export 12,
not the claimed tiered credit `min(12,8)*10 + max(12-8,0)*tier2 = 80`.
-/
theorem solar_credit_single_capped_tier_cx :
    parse_solar_fit_tiers "10c/kWh (first 8kWh/day)".data = some [(10, 8)] ∧
    solarCreditPerDay [(10, 8)] 12 = 120 ∧
    specSolarCredit [(10, 8)] 12 = 80 ∧
    ((120 : ℚ) = 80 → False) := by
  refine ⟨?_, ?_, ?_, by norm_num⟩
  · simp [parse_solar_fit_tiers, NO_SOLAR, splitSemi, parseParts, parseTierPart, matchClause,
      strip, isSpc, isDigitDot, matchLit, parseNum, digitsVal, charVal, sortTiers, insertTier,
      tierLE, Nat.ofDigits_cons, Nat.ofDigits_nil]
  · rw [solarCreditPerDay, fitConstants]
    norm_num [min_def, max_def]
  · rw [specSolarCredit]
    norm_num [min_def, max_def]

/--
C3 (amended): the tiered credit formula
`min(export, cap) * tier1Rate + max(export - cap, 0) * tier2Rate` is used
exactly when there are at least two parsed tiers and the first has cap
`> 0`; with one parsed tier, or a first cap `<= 0`, the flat credit
`export * tier1Rate` is used (zero when no tier exists); the concrete
tiers `[(10, 8), (3, 0)]` at export 12 give a credit of 92 per day.
-/
theorem solar_credit_formula :
    (∀ (t1 t2 : ℚ × ℚ) (rest : List (ℚ × ℚ)) (e : ℚ), 0 < t1.2 →
        solarCreditPerDay (t1 :: t2 :: rest) e =
          min e t1.2 * t1.1 + max (e - t1.2) 0 * t2.1) ∧
    (∀ (t1 t2 : ℚ × ℚ) (rest : List (ℚ × ℚ)) (e : ℚ), t1.2 ≤ 0 →
        solarCreditPerDay (t1 :: t2 :: rest) e = e * t1.1) ∧
    (∀ (t1 : ℚ × ℚ) (e : ℚ), solarCreditPerDay [t1] e = e * t1.1) ∧
    (∀ e : ℚ, solarCreditPerDay [] e = e * 0) ∧
    solarCreditPerDay [(10, 8), (3, 0)] 12 = 92 := by
  refine ⟨?_, ?_, ?_, ?_, ?_⟩
  · intro t1 t2 rest e h
    simp [solarCreditPerDay, fitConstants, h]
  · intro t1 t2 rest e h
    have : ¬ (0 : ℚ) < t1.2 := not_lt.mpr h
    simp [solarCreditPerDay, fitConstants, this]
  · intro t1 e
    simp [solarCreditPerDay, fitConstants]
  · intro e
    simp [solarCreditPerDay, fitConstants]
  · rw [solarCreditPerDay, fitConstants]
    norm_num [min_def, max_def]

/-- Witness for C3's amended formula at the concrete tiers of the claim. -/
theorem solar_credit_formula_witness :
    solarCreditPerDay [(10, 8), (3, 0)] 12 =
      min 12 ((10:ℚ), (8:ℚ)).2 * ((10:ℚ), (8:ℚ)).1 +
        max (12 - ((10:ℚ), (8:ℚ)).2) 0 * ((3:ℚ), (0:ℚ)).1 := by
  have h := solar_credit_formula.1 (10, 8) (3, 0) [] 12 (by norm_num)
  simpa using h

/-! ### Claim C6: government feed-in entries contribute nothing -/

/-- Dropping the `"G"` entries leaves any per-fit flatten unchanged when
`"G"` entries produce nothing. -/
theorem flatten_filter_G {β : Type} (f : SolarFit → List β)
    (hf : ∀ fit, fit.type = some "G" → f fit = []) :
    ∀ l : List SolarFit,
      ((l.filter (fun fit => fit.type ≠ some "G")).map f).flatten = (l.map f).flatten := by
  intro l
  induction l with
  | nil => rfl
  | cons fit rest ih =>
    rw [List.filter_cons]
    by_cases h : fit.type = some "G"
    · have hd : (decide (fit.type ≠ some "G")) = false := by simp [h]
      simp only [hd, Bool.false_eq_true, if_false, List.map_cons, List.flatten_cons,
        hf fit h, List.nil_append]
      exact ih
    · have hd : (decide (fit.type ≠ some "G")) = true := by simp [h]
      simp only [hd, if_true, List.map_cons, List.flatten_cons]
      rw [ih]

/-- When every solar fit is a `"G"` entry, no clause and no rate survives. -/
theorem all_G_empty (c : Contract) (h : ∀ fit ∈ c.solarFit, fit.type = some "G") :
    collect_solar_fit_rates c = [] ∧ fitClauses c = [] := by
  constructor
  · unfold collect_solar_fit_rates
    rw [List.filter_eq_nil_iff.mpr]
    intro a ha
    rw [List.mem_flatten] at ha
    obtain ⟨l, hl, hal⟩ := ha
    rw [List.mem_map] at hl
    obtain ⟨fit, hfit, rfl⟩ := hl
    simp [h fit hfit] at hal
  · unfold fitClauses
    rw [List.flatten_eq_nil_iff]
    intro l hl
    rw [List.mem_map] at hl
    obtain ⟨fit, hfit, rfl⟩ := hl
    simp [h fit hfit]

/--
C6: feed-in entries with type `"G"` contribute nothing: the collected rates
and the details string are unchanged when they are removed; if every entry
is a `"G"` entry, the min and max are `0.0` and the details string is the
"No solar feed-in tariff" sentinel; and every collected rate is `> 0`.
-/
theorem government_fit_excluded :
    (∀ c : Contract,
        collect_solar_fit_rates c = collect_solar_fit_rates (removeG c) ∧
        extract_solar_fit_details c = extract_solar_fit_details (removeG c)) ∧
    (∀ c : Contract, (∀ fit ∈ c.solarFit, fit.type = some "G") →
        extract_solar_fit_min c = 0 ∧ extract_solar_fit_max c = 0 ∧
        extract_solar_fit_details c = NO_SOLAR) ∧
    (∀ (c : Contract) (r : ℚ), r ∈ collect_solar_fit_rates c → 0 < r) := by
  refine ⟨?_, ?_, ?_⟩
  · intro c
    have hrates : collect_solar_fit_rates (removeG c) = collect_solar_fit_rates c := by
      unfold collect_solar_fit_rates removeG
      rw [flatten_filter_G]
      intro fit h
      simp [h]
    have hclauses : fitClauses (removeG c) = fitClauses c := by
      unfold fitClauses removeG
      rw [flatten_filter_G]
      intro fit h
      simp [h]
    refine ⟨hrates.symm, ?_⟩
    unfold extract_solar_fit_details
    rw [hclauses]
    by_cases h1 : c.solarFit.isEmpty
    · have h2 : (removeG c).solarFit.isEmpty := by
        rw [List.isEmpty_iff] at h1 ⊢
        simp [removeG, h1]
      simp [h1, h2]
    · by_cases h2 : (removeG c).solarFit.isEmpty
      · have hcl : fitClauses c = [] := by
          rw [← hclauses]
          unfold fitClauses
          rw [List.isEmpty_iff] at h2
          simp [h2]
        simp [h1, h2, hcl]
      · simp [h1, h2]
  · intro c h
    obtain ⟨hrates, hclauses⟩ := all_G_empty c h
    refine ⟨?_, ?_, ?_⟩
    · simp [extract_solar_fit_min, hrates]
    · simp [extract_solar_fit_max, hrates]
    · unfold extract_solar_fit_details
      by_cases h1 : c.solarFit.isEmpty <;> simp [h1, hclauses]
  · intro c r hr
    unfold collect_solar_fit_rates at hr
    have := List.of_mem_filter hr
    simpa using this

/-- Witness for C6 at the concrete single government entry of rate 44. -/
theorem government_fit_excluded_witness :
    extract_solar_fit_min gov44Contract = 0 ∧ extract_solar_fit_max gov44Contract = 0 ∧
    extract_solar_fit_details gov44Contract = NO_SOLAR :=
  government_fit_excluded.2.1 gov44Contract (by simp [gov44Contract])

/-! ### Claim C9: a flat-rate-only retailer FIT vanishes from the cost model -/

/-- The min and max of a non-empty constant list. -/
theorem minmax_const (l : List ℚ) (r : ℚ) (hne : l ≠ []) (hall : ∀ x ∈ l, x = r) :
    l.min? = some r ∧ l.max? = some r := by
  induction l with
  | nil => exact absurd rfl hne
  | cons a t ih =>
    have ha : a = r := hall a (by simp)
    subst ha
    cases t with
    | nil => simp [List.min?_cons, List.max?_cons]
    | cons b t' =>
      have ht : ∀ x ∈ b :: t', x = a := fun x hx => hall x (by simp [hx])
      obtain ⟨hm, hM⟩ := ih (by simp) ht
      rw [List.min?_cons, List.max?_cons, hm, hM]
      simp

/-- Under C9's hypotheses every collected rate is `r`, `r` is collected,
and no clause is produced. -/
theorem collect_flat_rate (c : Contract) (r : ℚ)
    (hall : ∀ fit ∈ c.solarFit, fit.type ≠ some "G" →
        fit.rate = some r ∧ fit.singleTariffRates = [])
    (hr : 0 < r) :
    (∀ x ∈ collect_solar_fit_rates c, x = r) ∧
    ((∃ fit ∈ c.solarFit, fit.type ≠ some "G") → r ∈ collect_solar_fit_rates c) ∧
    fitClauses c = [] := by
  refine ⟨?_, ?_, ?_⟩
  · intro x hx
    unfold collect_solar_fit_rates at hx
    have hx' := List.mem_of_mem_filter hx
    rw [List.mem_flatten] at hx'
    obtain ⟨l, hl, hxl⟩ := hx'
    rw [List.mem_map] at hl
    obtain ⟨fit, hfit, rfl⟩ := hl
    by_cases hG : fit.type = some "G"
    · simp [hG] at hxl
    · obtain ⟨hrate, -⟩ := hall fit hfit hG
      simp [hG, hrate] at hxl
      exact hxl
  · rintro ⟨fit, hfit, hG⟩
    obtain ⟨hrate, -⟩ := hall fit hfit hG
    unfold collect_solar_fit_rates
    rw [List.mem_filter]
    refine ⟨?_, by simpa using hr⟩
    rw [List.mem_flatten]
    refine ⟨[r], ?_, by simp⟩
    rw [List.mem_map]
    exact ⟨fit, hfit, by simp [hG, hrate]⟩
  · unfold fitClauses
    rw [List.flatten_eq_nil_iff]
    intro l hl
    rw [List.mem_map] at hl
    obtain ⟨fit, hfit, rfl⟩ := hl
    by_cases hG : fit.type = some "G"
    · simp [hG]
    · obtain ⟨-, hstr⟩ := hall fit hfit hG
      simp [hG, hstr]

/--
C9 (implicit): for a contract whose retailer feed-in entries carry only a
positive flat `rate` with no `singleTariffRates` tiers, `solarFitMin` and
`solarFitMax` report that rate, but the details formatter returns the
"No solar feed-in tariff" sentinel, the tier parser yields the empty list,
and the cost model's solar credit is zero.
-/
theorem flat_rate_fit_lost_in_cost_model (c : Contract) (r e : ℚ)
    (hne : ∃ fit ∈ c.solarFit, fit.type ≠ some "G")
    (hall : ∀ fit ∈ c.solarFit, fit.type ≠ some "G" →
        fit.rate = some r ∧ fit.singleTariffRates = [])
    (hr : 0 < r) (hr2 : round2 r = r) :
    extract_solar_fit_min c = r ∧ extract_solar_fit_max c = r ∧
    extract_solar_fit_details c = NO_SOLAR ∧
    parse_solar_fit_tiers (extract_solar_fit_details c) = some [] ∧
    solarCreditPerDay [] e = 0 := by
  obtain ⟨hmem, hin, hclauses⟩ := collect_flat_rate c r hall hr
  have hne' : collect_solar_fit_rates c ≠ [] := by
    intro h0
    have := hin hne
    rw [h0] at this
    cases this
  obtain ⟨hmin, hmax⟩ := minmax_const _ r hne' hmem
  have hdetails : extract_solar_fit_details c = NO_SOLAR := by
    unfold extract_solar_fit_details
    by_cases h1 : c.solarFit.isEmpty <;> simp [h1, hclauses]
  refine ⟨?_, ?_, hdetails, ?_, ?_⟩
  · simp [extract_solar_fit_min, hmin, hr2]
  · simp [extract_solar_fit_max, hmax, hr2]
  · rw [hdetails]
    simp [parse_solar_fit_tiers]
  · simp [solarCreditPerDay, fitConstants]

/-- A contract whose only FIT entry carries the flat rate 8.5 and no
tiers. -/
def flatRateContract : Contract := ⟨none, [], [⟨some "R", some (17/2), []⟩], []⟩

/-- Witness for C9 at the flat 8.5 c/kWh contract and export 12. -/
theorem flat_rate_fit_lost_witness :
    extract_solar_fit_min flatRateContract = 17/2 ∧
    extract_solar_fit_max flatRateContract = 17/2 ∧
    extract_solar_fit_details flatRateContract = NO_SOLAR ∧
    parse_solar_fit_tiers (extract_solar_fit_details flatRateContract) = some [] ∧
    solarCreditPerDay [] 12 = 0 :=
  flat_rate_fit_lost_in_cost_model flatRateContract (17/2) 12
    ⟨⟨some "R", some (17/2), []⟩, by simp [flatRateContract], by simp⟩
    (by intro fit hfit hG
        simp [flatRateContract] at hfit
        simp [hfit])
    (by norm_num)
    (by rw [round2, round_eq]; norm_num)

/-! ### Claim C10: the filter is not total over malformed plans -/

/-- A malformed plan makes both gate predicates raise. -/
theorem malformed_gate_errors (p : RawPlan) (h : Malformed p) :
    (∃ e, plan_has_demand_charge p = .error e) ∧
    (∃ e, plan_has_controlled_load p = .error e) := by
  obtain ⟨pd⟩ := p
  rcases h with h | ⟨pd', h, hc⟩
  · have hpd : pd = none := h
    subst hpd
    exact ⟨⟨.keyError "planData", rfl⟩, ⟨.keyError "planData", rfl⟩⟩
  · have hpd : pd = some pd' := h
    subst hpd
    simp only [plan_has_demand_charge, plan_has_controlled_load, hc]
    exact ⟨⟨.indexError "list index out of range", rfl⟩,
      ⟨.indexError "list index out of range", rfl⟩⟩

/-- With the demand switch off, any malformed plan in the batch makes the
whole filter loop fail. -/
theorem filterLoop_error_of_malformed (icl : Bool) :
    ∀ plans : List RawPlan, (∃ p ∈ plans, Malformed p) →
      ∃ e, filterLoop icl false plans = .error e := by
  intro plans
  induction plans with
  | nil =>
    rintro ⟨p, hp, -⟩
    cases hp
  | cons q qs ih =>
    rintro ⟨p, hp, hm⟩
    rcases List.mem_cons.mp hp with rfl | hp'
    · obtain ⟨⟨e, he⟩, -⟩ := malformed_gate_errors p hm
      exact ⟨e, by rw [filterLoop]; simp [he]⟩
    · cases hq : plan_has_demand_charge q with
      | error e => exact ⟨e, by rw [filterLoop]; simp [hq]⟩
      | ok b =>
        obtain ⟨e, he⟩ := ih ⟨p, hp', hm⟩
        cases b with
        | true => exact ⟨e, by rw [filterLoop]; simp [hq, he]⟩
        | false =>
          cases hcl : (if icl then (Except.ok false : Except PyErr Bool)
              else plan_has_controlled_load q) with
          | error e2 => exact ⟨e2, by rw [filterLoop]; simp [hq, hcl]⟩
          | ok b2 =>
            cases b2 with
            | true => exact ⟨e, by rw [filterLoop]; simp [hq, hcl, he]⟩
            | false => exact ⟨e, by rw [filterLoop]; simp [hq, hcl, he]⟩

/-- A malformed plan fails `process_plan` with a raw lookup failure. -/
theorem process_plan_error_of_malformed (p : RawPlan) (h : Malformed p) :
    ∃ e, process_plan p = .error e ∧ isRawLookup e = true := by
  obtain ⟨pd⟩ := p
  rcases h with h | ⟨pd', h, hc⟩
  · have hpd : pd = none := h
    subst hpd
    exact ⟨.keyError "planData", rfl, rfl⟩
  · have hpd : pd = some pd' := h
    subst hpd
    simp only [process_plan, hc]
    exact ⟨.indexError "list index out of range", rfl, rfl⟩

/--
C10: the gate predicates raise raw lookup failures on a plan without
`planData` or with an empty contract list; consequently (demand switch off,
as `main` always passes) a malformed plan anywhere in the batch aborts the
whole `filter_plans` call; the skip-and-continue recovery exists only in
the later processing loop, which drops the malformed plan and counts it.
-/
theorem filter_not_total_on_malformed :
    (∀ p : RawPlan, p.planData = none →
        plan_has_demand_charge p = .error (.keyError "planData") ∧
        plan_has_controlled_load p = .error (.keyError "planData")) ∧
    (∀ (p : RawPlan) (pd : PlanData), p.planData = some pd → pd.contract = [] →
        plan_has_demand_charge p = .error (.indexError "list index out of range") ∧
        plan_has_controlled_load p = .error (.indexError "list index out of range")) ∧
    (∀ (plans : List RawPlan) (icl : Bool), (∃ p ∈ plans, Malformed p) →
        ∃ e, filter_plans plans icl false = .error e) ∧
    (∀ (p : RawPlan) (ps : List RawPlan), Malformed p →
        (processLoop (p :: ps)).1 = (processLoop ps).1 ∧
        (processLoop (p :: ps)).2 = (processLoop ps).2 + 1) := by
  refine ⟨?_, ?_, ?_, ?_⟩
  · intro p h
    obtain ⟨pd⟩ := p
    have hpd : pd = none := h
    subst hpd
    exact ⟨rfl, rfl⟩
  · intro p pd h hc
    obtain ⟨pd0⟩ := p
    have hpd : pd0 = some pd := h
    subst hpd
    simp [plan_has_demand_charge, plan_has_controlled_load, hc]
  · intro plans icl hmal
    obtain ⟨e, he⟩ := filterLoop_error_of_malformed icl plans hmal
    exact ⟨e, by simp [filter_plans, he, bind, Except.bind]⟩
  · intro p ps hm
    obtain ⟨e, he, -⟩ := process_plan_error_of_malformed p hm
    rw [processLoop]
    simp [he]

/-- Witness for C10: a batch holding a plan without `planData` makes the
filter fail as a whole. -/
theorem filter_not_total_witness :
    ∃ e, filter_plans [plainPlan, noDataPlan] false false = .error e :=
  filter_not_total_on_malformed.2.2.1 [plainPlan, noDataPlan] false
    ⟨noDataPlan, by simp, Or.inl rfl⟩

/-! ### Claim C7: malformed plans raise raw errors caught by a blanket handler -/

/--
C7 counterexample: a plan without `planData` makes `process_plan` raise the
raw lookup failure `KeyError("planData")` — a `MalformedPlanError` carrying
a display name never occurs, since no such error exists in the code.
-/
theorem process_plan_raw_error_cx :
    process_plan noDataPlan = .error (.keyError "planData") ∧
    isRawLookup (.keyError "planData") = true ∧
    PyErr.keyError "planData" ≠ PyErr.malformedPlan "No Data Plan" := by
  refine ⟨rfl, rfl, by simp⟩

/--
C7 (amended): a malformed plan makes normalization raise a raw lookup
failure (`KeyError`/`IndexError`, not a `MalformedPlanError`); the blanket
handler in the processing loop recovers locally: the offending plan is
skipped, the error counter incremented, the remaining plans processed, and
the counts always add up to the batch size.
-/
theorem malformed_plan_skip_and_continue :
    (∀ p : RawPlan, Malformed p → ∃ e, process_plan p = .error e ∧ isRawLookup e = true) ∧
    (∀ (p : RawPlan) (ps : List RawPlan) (e : PyErr), process_plan p = .error e →
        processLoop (p :: ps) = ((processLoop ps).1, (processLoop ps).2 + 1)) ∧
    (∀ (p : RawPlan) (ps : List RawPlan) (row : PlanRow), process_plan p = .ok row →
        processLoop (p :: ps) = (row :: (processLoop ps).1, (processLoop ps).2)) ∧
    (∀ plans : List RawPlan,
        (processLoop plans).1.length + (processLoop plans).2 = plans.length) := by
  refine ⟨process_plan_error_of_malformed, ?_, ?_, ?_⟩
  · intro p ps e he
    rw [processLoop]
    simp [he]
  · intro p ps row hrow
    rw [processLoop]
    simp [hrow]
  · intro plans
    induction plans with
    | nil => rfl
    | cons p ps ih =>
      rw [processLoop]
      cases hp : process_plan p <;> simp [hp] <;> omega

/-- Witness for C7's amended behaviour: the plan without `planData` is
skipped and counted, with processing continuing over the rest. -/
theorem malformed_plan_skip_and_continue_witness :
    processLoop [noDataPlan] = ((processLoop []).1, (processLoop []).2 + 1) :=
  malformed_plan_skip_and_continue.2.1 noDataPlan [] (.keyError "planData") rfl

/-! ### Claim C8: zero available distributors -/

/-- When every probe reports no plans (or the error sentinel), the
available set is empty. -/
theorem availableOf_nil (ds : List Dist) (probe : String → ℤ)
    (h : ∀ d ∈ ds, probe d.id ≤ 0) : availableOf ds probe = [] := by
  induction ds with
  | nil => rfl
  | cons d rest ih =>
    have hd : ¬ (0 < probe d.id) := not_lt.mpr (h d (by simp))
    simp only [availableOf, List.filterMap_cons, hd, if_neg hd]
    exact ih (fun x hx => h x (by simp [hx]))

/--
C8 counterexample: with two discovered distributors and every probe
returning 0, the `--dist all` branch of `main` does not terminate the
resolution — it falls back to a pseudo-distributor with an empty id, the
selection is non-empty, so the guard does not exit and the fetch proceeds
unscoped.
-/
theorem dist_all_unscoped_fetch_cx :
    selectDistAll [⟨"1", "Ausgrid"⟩, ⟨"2", "Endeavour"⟩] (fun _ => 0) =
      [⟨"", "Auto", some 0⟩] ∧
    1 < ([⟨"1", "Ausgrid"⟩, ⟨"2", "Endeavour"⟩] : List Dist).length ∧
    mainGuardExits [⟨"", "Auto", some 0⟩] = false := by
  refine ⟨?_, by simp, rfl⟩
  simp [selectDistAll, availableOf, mainGuardExits]

/--
C8 (amended): in the interactive path, more than one discovered distributor
with no probe reporting a positive count yields an empty selection
(whatever the prompt would answer), and `main`'s guard exits before any
fetch; but in the `--dist all` path the same situation falls back to a
single pseudo-distributor with an empty id and the fetch proceeds
unscoped.
-/
theorem no_available_distributor (ds : List Dist) (probe : String → ℤ)
    (choose : List SelDist → List SelDist)
    (hlen : 1 < ds.length) (hp : ∀ d ∈ ds, probe d.id ≤ 0) :
    select_distributor_interactive ds probe choose = [] ∧
    mainGuardExits (select_distributor_interactive ds probe choose) = true ∧
    selectDistAll ds probe = [⟨"", "Auto", some 0⟩] := by
  have hav := availableOf_nil ds probe hp
  rcases ds with - | ⟨a, - | ⟨b, t⟩⟩
  · simp at hlen
  · simp at hlen
  · refine ⟨?_, ?_, ?_⟩
    · simp [select_distributor_interactive, hav]
    · simp [select_distributor_interactive, hav, mainGuardExits]
    · simp [selectDistAll, hav]

/-- Witness for C8's amended behaviour at two concrete distributors whose
probes both return 0. -/
theorem no_available_distributor_witness :
    select_distributor_interactive [⟨"1", "Ausgrid"⟩, ⟨"2", "Endeavour"⟩] (fun _ => 0) id = [] ∧
    mainGuardExits
      (select_distributor_interactive [⟨"1", "Ausgrid"⟩, ⟨"2", "Endeavour"⟩] (fun _ => 0) id) =
      true ∧
    selectDistAll [⟨"1", "Ausgrid"⟩, ⟨"2", "Endeavour"⟩] (fun _ => 0) = [⟨"", "Auto", some 0⟩] :=
  no_available_distributor _ _ id (by simp) (fun d _ => le_refl 0)

/-! ### Decimal numeral lemmas: rendering and parsing are inverse -/

/-- The fuel-driven digits are correct whenever the fuel suffices. -/
theorem natDigitsAux_ofDigits :
    ∀ fuel n, n ≤ fuel → Nat.ofDigits 10 (natDigitsAux fuel n) = n := by
  intro fuel
  induction fuel with
  | zero =>
    intro n hn
    interval_cases n
    rfl
  | succ fuel ih =>
    intro n hn
    match n with
    | 0 => rfl
    | m + 1 =>
      have hdiv : (m + 1) / 10 ≤ fuel := by
        have := Nat.div_lt_self (Nat.succ_pos m) (by norm_num : 1 < 10)
        omega
      simp only [natDigitsAux, Nat.ofDigits_cons, ih _ hdiv]
      omega

/-- Digits recompose to the number. -/
theorem ofDigits_natDigits (n : ℕ) : Nat.ofDigits 10 (natDigits n) = n :=
  natDigitsAux_ofDigits n n le_rfl

/-- Every produced digit is below 10. -/
theorem natDigitsAux_lt : ∀ fuel n d, d ∈ natDigitsAux fuel n → d < 10 := by
  intro fuel
  induction fuel with
  | zero => intro n d h; cases h
  | succ fuel ih =>
    intro n d h
    match n with
    | 0 => cases h
    | m + 1 =>
      simp only [natDigitsAux, List.mem_cons] at h
      rcases h with rfl | h
      · exact Nat.mod_lt _ (by norm_num)
      · exact ih _ d h

/-- Every digit of `natDigits` is below 10. -/
theorem natDigits_lt (n d : ℕ) (h : d ∈ natDigits n) : d < 10 :=
  natDigitsAux_lt n n d h

/-- Digit-count bound: `n < 10 ^ k` yields at most `k` digits. -/
theorem natDigitsAux_len :
    ∀ fuel n k, n ≤ fuel → n < 10 ^ k → (natDigitsAux fuel n).length ≤ k := by
  intro fuel
  induction fuel with
  | zero =>
    intro n k hn _
    interval_cases n
    simp [natDigitsAux]
  | succ fuel ih =>
    intro n k hn hk
    match n with
    | 0 => simp [natDigitsAux]
    | m + 1 =>
      match k with
      | 0 => omega
      | j + 1 =>
        have hdiv : (m + 1) / 10 ≤ fuel := by
          have := Nat.div_lt_self (Nat.succ_pos m) (by norm_num : 1 < 10)
          omega
        have hdivk : (m + 1) / 10 < 10 ^ j := by
          rw [Nat.div_lt_iff_lt_mul (by norm_num : 0 < 10)]
          calc m + 1 < 10 ^ (j + 1) := hk
          _ = 10 ^ j * 10 := by ring
        simpa [natDigitsAux] using ih _ j hdiv hdivk

/-- Digit-count bound for `natDigits`. -/
theorem natDigits_len (n k : ℕ) (h : n < 10 ^ k) : (natDigits n).length ≤ k :=
  natDigitsAux_len n n k le_rfl h

/-- Reading back a rendered digit gives the digit. -/
theorem charVal_digitChar (d : ℕ) (h : d < 10) : charVal (digitChar d) = d := by
  interval_cases d <;> decide

/-- A rendered digit is a digit character. -/
theorem digitChar_isDigit (d : ℕ) (h : d < 10) : (digitChar d).isDigit = true := by
  interval_cases d <;> decide

/-- A digit character is never a whitespace character. -/
theorem isSpc_false_of_isDigitDot (c : Char) (h : isDigitDot c = true) : isSpc c = false := by
  by_contra h2
  have h3 : isSpc c = true := by
    cases hc : isSpc c
    · exact absurd hc h2
    · rfl
  simp only [isSpc, Bool.or_eq_true, beq_iff_eq] at h3
  rcases h3 with ((((rfl | rfl) | rfl) | rfl) | rfl) | rfl <;> cases h

/-- A digit character is in the regex class and is not a structural
character. -/
theorem digitChar_class (d : ℕ) (h : d < 10) :
    isDigitDot (digitChar d) = true ∧ digitChar d ≠ '.' ∧ digitChar d ≠ ';' := by
  interval_cases d <;> refine ⟨by decide, by decide, by decide⟩

/-- Reading a rendered digit string recovers the little-endian value. -/
theorem digitsVal_render (ds : List ℕ) (h : ∀ d ∈ ds, d < 10) :
    digitsVal ((ds.reverse).map digitChar) = Nat.ofDigits 10 ds := by
  unfold digitsVal
  rw [← List.map_reverse, List.reverse_reverse, List.map_map]
  congr 1
  rw [List.map_congr_left (g := id)]
  · simp
  · intro d hd
    exact charVal_digitChar d (h d hd)

/-- The value of `natStr`. -/
theorem digitsVal_natStr (n : ℕ) : digitsVal (natStr n) = n := by
  unfold natStr
  by_cases h : n = 0
  · subst h
    decide
  · rw [if_neg h, digitsVal_render _ (natDigits_lt n), ofDigits_natDigits]

/-- `natStr` consists of digit characters only. -/
theorem natStr_all_digit (n : ℕ) : ∀ c ∈ natStr n, c.isDigit = true := by
  unfold natStr
  by_cases h : n = 0
  · subst h
    intro c hc
    simp at hc
    subst hc
    decide
  · rw [if_neg h]
    intro c hc
    rw [List.mem_map] at hc
    obtain ⟨d, hd, rfl⟩ := hc
    rw [List.mem_reverse] at hd
    exact digitChar_isDigit d (natDigits_lt n d hd)

/-- `natStr` is never empty. -/
theorem natStr_ne_nil (n : ℕ) : natStr n ≠ [] := by
  unfold natStr
  by_cases h : n = 0
  · simp [h]
  · rw [if_neg h]
    intro hc
    rw [List.map_eq_nil_iff, List.reverse_eq_nil_iff] at hc
    have := ofDigits_natDigits n
    rw [hc] at this
    simp at this
    exact h this.symm

/-- Digit characters are in the regex class, differ from the structural
characters, and are not whitespace. -/
theorem isDigit_class (c : Char) (h : c.isDigit = true) :
    isDigitDot c = true ∧ (c = '.' → False) ∧ (c = ';' → False) ∧ isSpc c = false := by
  have h1 : isDigitDot c = true := by simp [isDigitDot, h]
  refine ⟨h1, ?_, ?_, isSpc_false_of_isDigitDot c h1⟩
  · rintro rfl
    cases h
  · rintro rfl
    cases h

/-- `fracStr` length, digit-class membership and value. -/
theorem fracStr_facts (k m : ℕ) (h : m < 10 ^ k) :
    (fracStr k m).length = k ∧ (∀ c ∈ fracStr k m, c.isDigit = true) ∧
    digitsVal (fracStr k m) = m := by
  have hlen := natDigits_len m k h
  have hall : ∀ d ∈ natDigits m ++ List.replicate (k - (natDigits m).length) 0, d < 10 := by
    intro d hd
    rw [List.mem_append] at hd
    rcases hd with hd | hd
    · exact natDigits_lt m d hd
    · rw [List.eq_of_mem_replicate hd]
      norm_num
  refine ⟨?_, ?_, ?_⟩
  · unfold fracStr
    rw [List.length_map, List.length_reverse, List.length_append, List.length_replicate]
    omega
  · intro c hc
    unfold fracStr at hc
    rw [List.mem_map] at hc
    obtain ⟨d, hd, rfl⟩ := hc
    rw [List.mem_reverse] at hd
    exact digitChar_isDigit d (hall d hd)
  · unfold fracStr
    rw [digitsVal_render _ hall, Nat.ofDigits_append]
    have hz : Nat.ofDigits 10 (List.replicate (k - (natDigits m).length) (0 : ℕ)) = 0 := by
      generalize k - (natDigits m).length = j
      induction j with
      | zero => rfl
      | succ j ihj => simp [List.replicate_succ, Nat.ofDigits_cons, ihj]
    rw [hz, ofDigits_natDigits]
    ring

/-- Greedy class scan over a satisfying block followed by a failing
character. -/
theorem takeWhile_block (p : Char → Bool) (l : List Char) (c0 : Char) (r : List Char)
    (hl : ∀ c ∈ l, p c = true) (hc : p c0 = false) :
    (l ++ c0 :: r).takeWhile p = l ∧ (l ++ c0 :: r).dropWhile p = c0 :: r := by
  induction l with
  | nil => simp [List.takeWhile, List.dropWhile, hc]
  | cons a l ih =>
    have ha : p a = true := hl a (by simp)
    obtain ⟨h1, h2⟩ := ih (fun c hcl => hl c (by simp [hcl]))
    simp only [List.cons_append, List.takeWhile_cons, List.dropWhile_cons, ha, if_true]
    exact ⟨by rw [h1], by rw [h2]⟩

/-- A class scan over an all-satisfying string consumes it whole. -/
theorem takeWhile_all (p : Char → Bool) (l : List Char) (hl : ∀ c ∈ l, p c = true) :
    l.takeWhile p = l ∧ l.dropWhile p = [] := by
  induction l with
  | nil => simp
  | cons a l ih =>
    have ha : p a = true := hl a (by simp)
    obtain ⟨h1, h2⟩ := ih (fun c hcl => hl c (by simp [hcl]))
    simp only [List.takeWhile_cons, List.dropWhile_cons, ha, if_true]
    exact ⟨by rw [h1], h2⟩

/-- A literal consumes itself. -/
theorem matchLit_self : ∀ lit rest : List Char, matchLit lit (lit ++ rest) = some rest := by
  intro lit
  induction lit with
  | nil => intro rest; rfl
  | cons a l ih => intro rest; simp [matchLit, ih]

/-- `parseNum` on a pure digit string. -/
theorem parseNum_digits (s : List Char) (hne : s ≠ [])
    (hd : ∀ c ∈ s, c.isDigit = true) :
    parseNum s = some (digitsVal s : ℚ) := by
  have hclass : ∀ c ∈ s, isDigitDot c = true := fun c hc => (isDigit_class c (hd c hc)).1
  have hnodot : ∀ c ∈ s, (c = '.' → False) := fun c hc => (isDigit_class c (hd c hc)).2.1
  unfold parseNum
  rw [if_pos]
  · obtain ⟨ht, hdr⟩ := takeWhile_all (fun c => c ≠ '.') s
      (by intro c hc; simpa using hnodot c hc)
    have hnil : digitsVal ([] : List Char) = 0 := rfl
    simp only [ht, hdr, List.drop_nil, List.length_nil, pow_zero, Nat.cast_ofNat, hnil]
    norm_num
  · refine ⟨by rw [List.all_eq_true]; exact hclass, ?_, ?_⟩
    · have : s.countP (fun c => c == '.') = 0 := by
        rw [List.countP_eq_zero]
        intro c hc
        simpa using hnodot c hc
      omega
    · rw [List.any_eq_true]
      match s, hne with
      | c :: t, _ => exact ⟨c, by simp, hd c (by simp)⟩

/-- `parseNum` on an integer-dot-fraction string. -/
theorem parseNum_ip_dot_fr (ip fr : List Char) (hne : ip ≠ [])
    (hip : ∀ c ∈ ip, c.isDigit = true) (hfr : ∀ c ∈ fr, c.isDigit = true) :
    parseNum (ip ++ '.' :: fr) = some ((digitsVal ip : ℚ) + (digitsVal fr : ℚ) / 10 ^ fr.length) := by
  have hipdot : ∀ c ∈ ip, (c = '.' → False) := fun c hc => (isDigit_class c (hip c hc)).2.1
  have hfrdot : ∀ c ∈ fr, (c = '.' → False) := fun c hc => (isDigit_class c (hfr c hc)).2.1
  unfold parseNum
  rw [if_pos]
  · obtain ⟨ht, hdr⟩ := takeWhile_block (fun c => c ≠ '.') ip '.' fr
      (by intro c hc; simpa using hipdot c hc) (by simp)
    simp only [ht, hdr, List.drop_succ_cons, List.drop_zero]
  · refine ⟨?_, ?_, ?_⟩
    · rw [List.all_eq_true]
      intro c hc
      rw [List.mem_append] at hc
      rcases hc with hc | hc
      · exact (isDigit_class c (hip c hc)).1
      · rw [List.mem_cons] at hc
        rcases hc with rfl | hc
        · decide
        · exact (isDigit_class c (hfr c hc)).1
    · have h1 : ip.countP (fun c => c == '.') = 0 := by
        rw [List.countP_eq_zero]
        intro c hc
        simpa using hipdot c hc
      have h2 : fr.countP (fun c => c == '.') = 0 := by
        rw [List.countP_eq_zero]
        intro c hc
        simpa using hfrdot c hc
      rw [List.countP_append, List.countP_cons]
      simp [h1, h2]
    · rw [List.any_eq_true]
      match ip, hne with
      | c :: t, _ => exact ⟨c, by simp, hip c (by simp)⟩

/-- The rendering of a decimal rational parses back to it. -/
theorem parseNum_numStr (q : ℚ) (h : IsDec q) : parseNum (numStr q) = some q := by
  obtain ⟨hq0, hq12⟩ := h
  have hfind : decExp q ≠ none := by
    intro hnone
    unfold decExp at hnone
    rw [List.find?_eq_none] at hnone
    have h12 : (12 : ℕ) ∈ List.range 13 := by simp
    have := hnone 12 h12
    simp [hq12] at this
  cases hks : decExp q with
  | none => exact absurd hks hfind
  | some k =>
    have hden : (q * 10 ^ k).den = 1 := by
      have := List.find?_some hks
      simpa using this
    have hnum0 : 0 ≤ (q * 10 ^ k).num := by
      rw [Rat.num_nonneg]
      positivity
    have hqn : q * 10 ^ k = (((q * 10 ^ k).num.toNat : ℕ) : ℚ) := by
      have h1 : ((q * 10 ^ k).num : ℚ) = q * 10 ^ k := (Rat.den_eq_one_iff _).mp hden
      rw [← h1]
      exact_mod_cast (Int.toNat_of_nonneg hnum0).symm
    have hrepr : numStr q = numStrAux q k := by
      unfold numStr
      rw [hks]
    rw [hrepr]
    unfold numStrAux
    generalize (q * 10 ^ k).num.toNat = n at hqn ⊢
    have hq : q = (n : ℚ) / 10 ^ k := by
      rw [← hqn]
      field_simp
    by_cases hk : k = 0
    · subst hk
      rw [if_pos rfl]
      rw [parseNum_digits _ (natStr_ne_nil _) (natStr_all_digit _), digitsVal_natStr]
      rw [hq]
      norm_num
    · rw [if_neg hk]
      have hmod : n % 10 ^ k < 10 ^ k := Nat.mod_lt _ (by positivity)
      obtain ⟨hlen, hfd, hfv⟩ := fracStr_facts k (n % 10 ^ k) hmod
      rw [parseNum_ip_dot_fr _ _ (natStr_ne_nil _) (natStr_all_digit _) hfd]
      rw [digitsVal_natStr, hfv, hlen, hq]
      have hsplit : ((n / 10 ^ k : ℕ) : ℚ) * 10 ^ k + ((n % 10 ^ k : ℕ) : ℚ) = (n : ℚ) := by
        have h2 : (((10 ^ k) * (n / 10 ^ k) + n % 10 ^ k : ℕ) : ℚ) = (n : ℚ) := by
          exact_mod_cast congrArg (Nat.cast : ℕ → ℚ) (Nat.div_add_mod n (10 ^ k))
        push_cast at h2
        linarith [h2]
      have h10 : (10 : ℚ) ^ k ≠ 0 := by positivity
      field_simp
      linarith [hsplit]

/-- Dropping while the head already fails keeps the list. -/
theorem dropWhile_head_false (p : Char → Bool) (s : List Char)
    (h : ∀ c, s.head? = some c → p c = false) : s.dropWhile p = s := by
  cases s with
  | nil => rfl
  | cons a t => simp [List.dropWhile, h a rfl]

/-- `strip` of a flat clause is the clause itself. -/
theorem strip_flat_clause (rs : List Char) (h0 : ∀ c ∈ rs, isDigitDot c = true) :
    strip (rs ++ "c/kWh".data) = rs ++ "c/kWh".data := by
  unfold strip
  rw [dropWhile_head_false isSpc (rs ++ "c/kWh".data) ?hhead]
  case hhead =>
    intro c hc
    cases rs with
    | nil =>
      simp at hc
      subst hc
      decide
    | cons r0 rs' =>
      simp at hc
      subst hc
      exact isSpc_false_of_isDigitDot r0 (h0 r0 (by simp))
  rw [List.reverse_append]
  rw [show ("c/kWh".data : List Char).reverse = ['h', 'W', 'k', '/', 'c'] from rfl]
  rw [dropWhile_head_false isSpc _ (by intro c hc; simp at hc; subst hc; decide)]
  rw [show (['h', 'W', 'k', '/', 'c'] ++ rs.reverse : List Char) =
    (rs ++ "c/kWh".data).reverse from by rw [List.reverse_append]; rfl]
  rw [List.reverse_reverse]

/-- `strip` of a capped clause is the clause itself. -/
theorem strip_capped_clause (rs cs : List Char) (h0 : ∀ c ∈ rs, isDigitDot c = true) :
    strip (rs ++ "c/kWh (first ".data ++ cs ++ "kWh/day)".data) =
      rs ++ "c/kWh (first ".data ++ cs ++ "kWh/day)".data := by
  unfold strip
  rw [dropWhile_head_false isSpc (rs ++ "c/kWh (first ".data ++ cs ++ "kWh/day)".data) ?hhead]
  case hhead =>
    intro c hc
    cases rs with
    | nil =>
      simp at hc
      subst hc
      decide
    | cons r0 rs' =>
      simp at hc
      subst hc
      exact isSpc_false_of_isDigitDot r0 (h0 r0 (by simp))
  rw [show (rs ++ "c/kWh (first ".data ++ cs ++ "kWh/day)".data).reverse =
    (")".data ++ "kWh/day".data.reverse ++ cs.reverse ++ "c/kWh (first ".data.reverse ++
      rs.reverse : List Char) from by simp]
  rw [dropWhile_head_false isSpc _ (by intro c hc; simp at hc; subst hc; decide)]
  rw [show (")".data ++ "kWh/day".data.reverse ++ cs.reverse ++ "c/kWh (first ".data.reverse ++
      rs.reverse : List Char) =
    (rs ++ "c/kWh (first ".data ++ cs ++ "kWh/day)".data).reverse from by simp]
  rw [List.reverse_reverse]

/-- The regex on a flat clause: it captures the rate numeral and no cap. -/
theorem matchClause_flat (rs : List Char) (hrs : rs ≠ [])
    (hars : ∀ c ∈ rs, isDigitDot c = true) :
    matchClause (rs ++ "c/kWh".data) = some (rs, none) := by
  obtain ⟨ht, hd⟩ := takeWhile_block isDigitDot rs 'c' "/kWh".data hars (by decide)
  unfold matchClause
  rw [show (rs ++ "c/kWh".data : List Char) = rs ++ 'c' :: "/kWh".data from rfl]
  rw [ht, hd]
  rw [if_neg (by simpa [List.isEmpty_iff] using hrs)]
  rw [show matchLit "c/kWh".data ('c' :: "/kWh".data) = some [] from by decide]
  simp [matchLit]

/-- The regex on a capped clause: it captures both numerals. -/
theorem matchClause_capped (rs cs : List Char) (hrs : rs ≠ [])
    (hars : ∀ c ∈ rs, isDigitDot c = true)
    (hcs : cs ≠ []) (hacs : ∀ c ∈ cs, isDigitDot c = true) :
    matchClause (rs ++ "c/kWh (first ".data ++ cs ++ "kWh/day)".data) =
      some (rs, some cs) := by
  obtain ⟨ht, hd⟩ := takeWhile_block isDigitDot rs 'c'
    ("/kWh (first ".data ++ cs ++ "kWh/day)".data) hars (by decide)
  obtain ⟨ht2, hd2⟩ := takeWhile_block isDigitDot cs 'k' "Wh/day)".data hacs (by decide)
  have hrsE : rs.isEmpty = false := by simpa [List.isEmpty_iff] using hrs
  have hcsE : cs.isEmpty = false := by simpa [List.isEmpty_iff] using hcs
  have hcs0 : ∀ c, cs.head? = some c → isSpc c = false := by
    intro c hc
    cases cs with
    | nil => cases hc
    | cons c0 cs' =>
      simp at hc
      subst hc
      exact isSpc_false_of_isDigitDot c0 (hacs c0 (by simp))
  have hshape : rs ++ "c/kWh (first ".data ++ cs ++ "kWh/day)".data =
      rs ++ 'c' :: ("/kWh (first ".data ++ cs ++ "kWh/day)".data) := by simp
  have hml1 : matchLit "c/kWh".data ('c' :: ("/kWh (first ".data ++ cs ++ "kWh/day)".data)) =
      some (' ' :: ("(first ".data ++ cs ++ "kWh/day)".data)) := by simp [matchLit]
  have hdw1 : (' ' :: ("(first ".data ++ cs ++ "kWh/day)".data)).dropWhile isSpc =
      "(first ".data ++ cs ++ "kWh/day)".data := by
    rw [List.dropWhile_cons, if_pos (by decide)]
    exact dropWhile_head_false isSpc _ (by intro c hc; simp at hc; subst hc; decide)
  have hml2 : matchLit "(first".data ("(first ".data ++ cs ++ "kWh/day)".data) =
      some (' ' :: (cs ++ "kWh/day)".data)) := by simp [matchLit]
  have htw : (' ' :: (cs ++ "kWh/day)".data)).takeWhile isSpc = [' '] := by
    rw [List.takeWhile_cons, if_pos (by decide)]
    have h0 : (cs ++ "kWh/day)".data).takeWhile isSpc = [] := by
      cases cs with
      | nil => exact absurd rfl hcs
      | cons c0 cs' =>
        have hns : isSpc c0 = false := isSpc_false_of_isDigitDot c0 (hacs c0 (by simp))
        rw [List.cons_append, List.takeWhile_cons, if_neg (by simp [hns])]
    rw [h0]
  have hdw2 : (' ' :: (cs ++ "kWh/day)".data)).dropWhile isSpc = cs ++ "kWh/day)".data := by
    rw [List.dropWhile_cons, if_pos (by decide)]
    refine dropWhile_head_false isSpc _ ?_
    intro c hc
    cases cs with
    | nil => exact absurd rfl hcs
    | cons c0 cs' =>
      rw [List.cons_append] at hc
      simp at hc
      subst hc
      exact isSpc_false_of_isDigitDot c0 (hacs c0 (by simp))
  have ht2' : List.takeWhile isDigitDot (cs ++ "kWh/day)".data) = cs := ht2
  have hd2' : List.dropWhile isDigitDot (cs ++ "kWh/day)".data) = 'k' :: "Wh/day)".data := hd2
  have hml3 : matchLit "kWh/day)".data ('k' :: "Wh/day)".data) = some [] := by decide
  rw [hshape]
  simp only [matchClause, ht, hd, hrsE, Bool.false_eq_true, if_false, hml1, hdw1, hml2,
    htw, hdw2, ht2', hd2', hml3, hcsE, List.isEmpty_cons]

/-- What being a numeral implies about the string. -/
theorem numeral_shape (s : List Char) (q : ℚ) (h : Numeral s q) :
    s ≠ [] ∧ ∀ c ∈ s, isDigitDot c = true := by
  unfold Numeral parseNum at h
  by_cases hcond : s.all isDigitDot = true ∧
      s.countP (fun c => c == '.') ≤ 1 ∧ s.any Char.isDigit = true
  · obtain ⟨h1, -, h3⟩ := hcond
    refine ⟨?_, by rw [List.all_eq_true] at h1; exact h1⟩
    intro hnil
    subst hnil
    cases h3
  · rw [if_neg (by tauto)] at h
    cases h

/-- A denoting flat clause is skipped never: it parses to its pair. -/
theorem parseTierPart_flat (rs : List Char) (q : ℚ) (h : Numeral rs q) :
    parseTierPart (clauseStr (rs, none)) = some (some (q, 0)) := by
  obtain ⟨hne, hclass⟩ := numeral_shape rs q h
  have h' : parseNum rs = some q := h
  simp only [parseTierPart, clauseStr, strip_flat_clause rs hclass,
    matchClause_flat rs hne hclass, h']

/-- A denoting capped clause parses to its pair. -/
theorem parseTierPart_capped (rs cs : List Char) (q v : ℚ)
    (hq : Numeral rs q) (hv : Numeral cs v) :
    parseTierPart (clauseStr (rs, some cs)) = some (some (q, v)) := by
  obtain ⟨hne, hclass⟩ := numeral_shape rs q hq
  obtain ⟨hne2, hclass2⟩ := numeral_shape cs v hv
  have hq' : parseNum rs = some q := hq
  have hv' : parseNum cs = some v := hv
  simp only [parseTierPart, clauseStr, strip_capped_clause rs cs hclass,
    matchClause_capped rs cs hne hclass hne2 hclass2, hq', hv']

/-- Any denoting clause parses to its pair. -/
theorem parseTierPart_denotes (cl : List Char × Option (List Char)) (t : ℚ × ℚ)
    (h : ClauseDenotes cl t) : parseTierPart (clauseStr cl) = some (some t) := by
  obtain ⟨rs, cso⟩ := cl
  obtain ⟨r, v⟩ := t
  cases cso with
  | none =>
    obtain ⟨hn, hv⟩ := h
    subst hv
    exact parseTierPart_flat rs r hn
  | some cs =>
    obtain ⟨hn, hv⟩ := h
    exact parseTierPart_capped rs cs r v hn hv

/-- The collection loop over denoting clauses returns exactly the denoted
pairs. -/
theorem parseParts_clauses (cls : List (List Char × Option (List Char)))
    (vals : List (ℚ × ℚ)) (hden : List.Forall₂ ClauseDenotes cls vals) :
    parseParts (cls.map clauseStr) = some vals := by
  induction hden with
  | nil => rfl
  | cons hR hF ih =>
    simp only [List.map_cons, parseParts, parseTierPart_denotes _ _ hR, ih]
    rfl

/-- The structural facts about a denoting clause needed for splitting. -/
theorem clause_single_facts (cl : List Char × Option (List Char)) (t : ℚ × ℚ)
    (h : ClauseDenotes cl t) :
    ';' ∉ clauseStr cl ∧ clauseStr cl ≠ [] ∧
    (∀ c, (clauseStr cl).head? = some c → isDigitDot c = true) := by
  obtain ⟨rs, cso⟩ := cl
  obtain ⟨r, v⟩ := t
  have hshape : rs ≠ [] ∧ ∀ c ∈ rs, isDigitDot c = true := by
    cases cso with
    | none => exact numeral_shape rs r h.1
    | some cs => exact numeral_shape rs r h.1
  obtain ⟨hne, hclass⟩ := hshape
  have hsemi_rs : ';' ∉ rs := by
    intro hm
    have := hclass ';' hm
    cases this
  have hcs_facts : ∀ cs, cso = some cs → cs ≠ [] ∧ ∀ c ∈ cs, isDigitDot c = true := by
    intro cs hcs
    subst hcs
    exact numeral_shape cs v h.2
  refine ⟨?_, ?_, ?_⟩
  · cases cso with
    | none =>
      intro hm
      simp only [clauseStr, List.mem_append] at hm
      rcases hm with hm | hm
      · exact hsemi_rs hm
      · simp at hm
    | some cs =>
      obtain ⟨-, hclass2⟩ := hcs_facts cs rfl
      intro hm
      simp only [clauseStr, List.mem_append] at hm
      rcases hm with ((hm | hm) | hm) | hm
      · exact hsemi_rs hm
      · simp at hm
      · have := hclass2 ';' hm
        cases this
      · simp at hm
  · cases rs with
    | nil => exact absurd rfl hne
    | cons r0 rs' => cases cso <;> simp [clauseStr]
  · intro c hc
    cases rs with
    | nil => exact absurd rfl hne
    | cons r0 rs' =>
      have hcr : c = r0 := by
        cases cso <;> simp [clauseStr] at hc <;> exact hc.symm
      rw [hcr]
      exact hclass r0 (by simp)

/-- A separator-free string splits to itself. -/
theorem splitSemi_no_semi : ∀ s : List Char, ';' ∉ s → splitSemi s = [s] := by
  intro s
  induction s with
  | nil => intro _; rfl
  | cons c rest ih =>
    intro h
    cases rest with
    | nil => rfl
    | cons c2 rest2 =>
      have hc : c ≠ ';' := fun hc => h (by simp [hc])
      have h2 : ';' ∉ (c2 :: rest2) := fun hm => h (by simp [hm])
      have hcond : ¬(c = ';' ∧ c2 = ' ') := fun hand => hc hand.1
      simp only [splitSemi, if_neg hcond, ih h2]

/-- Splitting after a separator-free prefix peels it off. -/
theorem splitSemi_append : ∀ p s : List Char, ';' ∉ p →
    splitSemi (p ++ ';' :: ' ' :: s) = p :: splitSemi s := by
  intro p
  induction p with
  | nil =>
    intro s _
    simp only [List.nil_append]
    simp [splitSemi]
  | cons c p' ih =>
    intro s h
    have hc : c ≠ ';' := fun hc => h (by simp [hc])
    have hp' : ';' ∉ p' := fun hm => h (by simp [hm])
    cases p' with
    | nil =>
      simp only [List.cons_append, List.nil_append]
      have hcond : ¬(c = ';' ∧ ';' = ' ') := fun hand => hc hand.1
      simp [splitSemi, hcond]
    | cons d p'' =>
      have hstep := ih s hp'
      rw [List.cons_append] at hstep
      have hcond : ¬(c = ';' ∧ d = ' ') := fun hand => hc hand.1
      simp only [List.cons_append, splitSemi, if_neg hcond, hstep]
      rw [show (p''.append (';' :: ' ' :: s) : List Char) = p'' ++ ';' :: ' ' :: s from rfl,
        hstep]

/-- Splitting a join of separator-free parts recovers the parts. -/
theorem splitSemi_joinSemi :
    ∀ parts : List (List Char), parts ≠ [] → (∀ p ∈ parts, ';' ∉ p) →
      splitSemi (joinSemi parts) = parts := by
  intro parts
  induction parts with
  | nil => intro h _; exact absurd rfl h
  | cons p ps ih =>
    intro _ hall
    cases ps with
    | nil => exact splitSemi_no_semi p (hall p (by simp))
    | cons q ps' =>
      rw [show joinSemi (p :: q :: ps') = p ++ ';' :: ' ' :: joinSemi (q :: ps') from rfl]
      rw [splitSemi_append p _ (hall p (by simp))]
      rw [ih (by simp) (fun x hx => hall x (by simp [hx]))]

/-- The head of a join is the head of its first part. -/
theorem joinSemi_head (p : List Char) (ps : List (List Char)) (hp : p ≠ []) :
    (joinSemi (p :: ps)).head? = p.head? := by
  cases ps with
  | nil => rfl
  | cons q ps' =>
    rw [show joinSemi (p :: q :: ps') = p ++ ';' :: ' ' :: joinSemi (q :: ps') from rfl]
    cases p with
    | nil => exact absurd rfl hp
    | cons c t => rfl

/-- The key comparison, written out. -/
theorem tierLE_iff (a b : ℚ × ℚ) :
    tierLE a b = true ↔
      ((if a.2 = 0 then (1 : ℕ) else 0) < (if b.2 = 0 then 1 else 0) ∨
       ((if a.2 = 0 then (1 : ℕ) else 0) = (if b.2 = 0 then 1 else 0) ∧ b.2 ≤ a.2)) := by
  simp [tierLE]

/-- The key comparison is total. -/
theorem tierLE_total (a b : ℚ × ℚ) : tierLE a b = true ∨ tierLE b a = true := by
  rw [tierLE_iff, tierLE_iff]
  by_cases ha : a.2 = 0 <;> by_cases hb : b.2 = 0 <;> simp [ha, hb]
  exact le_total b.2 a.2

/-- The key comparison is transitive. -/
theorem tierLE_trans (a b c : ℚ × ℚ)
    (h1 : tierLE a b = true) (h2 : tierLE b c = true) : tierLE a c = true := by
  rw [tierLE_iff] at h1 h2 ⊢
  by_cases ha : a.2 = 0 <;> by_cases hb : b.2 = 0 <;> by_cases hc : c.2 = 0 <;>
    simp [ha, hb, hc] at h1 h2 ⊢ <;> linarith

/-- Inserting permutes. -/
theorem insertTier_perm (x : ℚ × ℚ) : ∀ l, (insertTier x l).Perm (x :: l) := by
  intro l
  induction l with
  | nil => exact List.Perm.refl _
  | cons y ys ih =>
    unfold insertTier
    by_cases h : tierLE x y = true
    · rw [if_pos h]
    · rw [if_neg h]
      exact (ih.cons y).trans (List.Perm.swap x y ys)

/-- Sorting permutes. -/
theorem sortTiers_perm : ∀ l, (sortTiers l).Perm l := by
  intro l
  induction l with
  | nil => exact List.Perm.refl _
  | cons t ts ih =>
    unfold sortTiers
    exact (insertTier_perm t (sortTiers ts)).trans (ih.cons t)

/-- Inserting preserves sortedness. -/
theorem insertTier_pairwise (x : ℚ × ℚ) :
    ∀ l, l.Pairwise (fun a b => tierLE a b = true) →
      (insertTier x l).Pairwise (fun a b => tierLE a b = true) := by
  intro l
  induction l with
  | nil => intro _; simp [insertTier]
  | cons y ys ih =>
    intro h
    rw [List.pairwise_cons] at h
    obtain ⟨hy, hys⟩ := h
    unfold insertTier
    by_cases hxy : tierLE x y = true
    · rw [if_pos hxy, List.pairwise_cons]
      refine ⟨?_, List.pairwise_cons.mpr ⟨hy, hys⟩⟩
      intro z hz
      rcases List.mem_cons.mp hz with rfl | hz'
      · exact hxy
      · exact tierLE_trans x y z hxy (hy z hz')
    · rw [if_neg hxy, List.pairwise_cons]
      refine ⟨?_, ih hys⟩
      intro z hz
      rw [(insertTier_perm x ys).mem_iff] at hz
      rcases List.mem_cons.mp hz with rfl | hz'
      · rcases tierLE_total z y with h' | h'
        · exact absurd h' hxy
        · exact h'
      · exact hy z hz'

/-- The sort is sorted for the key comparison. -/
theorem sortTiers_pairwise : ∀ l, (sortTiers l).Pairwise (fun a b => tierLE a b = true) := by
  intro l
  induction l with
  | nil => exact List.Pairwise.nil
  | cons t ts ih => exact insertTier_pairwise t (sortTiers ts) ih

/-- The key comparison implies the spec's tier order. -/
theorem tierLE_tierOrd (a b : ℚ × ℚ) (h : tierLE a b = true) : TierOrd a b := by
  rw [tierLE_iff] at h
  unfold TierOrd
  by_cases ha : a.2 = 0 <;> by_cases hb : b.2 = 0 <;> simp [ha, hb] at h ⊢ <;> tauto

/-- Parsing a join of denoting clauses yields the sorted denoted pairs. -/
theorem parse_join_clauses (cls : List (List Char × Option (List Char)))
    (vals : List (ℚ × ℚ)) (hne : cls ≠ [])
    (hden : List.Forall₂ ClauseDenotes cls vals) :
    parse_solar_fit_tiers (joinSemi (cls.map clauseStr)) = some (sortTiers vals) := by
  have hfacts : ∀ cl ∈ cls, ';' ∉ clauseStr cl ∧ clauseStr cl ≠ [] ∧
      (∀ c, (clauseStr cl).head? = some c → isDigitDot c = true) := by
    clear hne
    induction hden with
    | nil => intro cl hcl; cases hcl
    | cons hR hF ih =>
      intro cl hcl
      rcases List.mem_cons.mp hcl with rfl | hcl'
      · exact clause_single_facts _ _ hR
      · exact ih cl hcl'
  have hsplit : splitSemi (joinSemi (cls.map clauseStr)) = cls.map clauseStr := by
    apply splitSemi_joinSemi _ (by simpa using hne)
    intro p hp
    rw [List.mem_map] at hp
    obtain ⟨cl, hcl, rfl⟩ := hp
    exact (hfacts cl hcl).1
  have hne2 : joinSemi (cls.map clauseStr) ≠ [] := by
    cases cls with
    | nil => exact absurd rfl hne
    | cons cl0 cls' =>
      rw [List.map_cons]
      have h1 := (hfacts cl0 (by simp)).2.1
      have hhead := joinSemi_head (clauseStr cl0) (cls'.map clauseStr) h1
      intro h0
      rw [h0] at hhead
      cases hcl0 : clauseStr cl0 with
      | nil => exact h1 hcl0
      | cons c0 t0 =>
        rw [hcl0] at hhead
        cases hhead
  have hnsolar : joinSemi (cls.map clauseStr) ≠ NO_SOLAR := by
    cases cls with
    | nil => exact absurd rfl hne
    | cons cl0 cls' =>
      rw [List.map_cons]
      have h1 := (hfacts cl0 (by simp)).2.1
      have hh := (hfacts cl0 (by simp)).2.2
      have hhead := joinSemi_head (clauseStr cl0) (cls'.map clauseStr) h1
      intro h0
      rw [h0] at hhead
      cases hcl0 : clauseStr cl0 with
      | nil => exact h1 hcl0
      | cons c0 t0 =>
        rw [hcl0] at hhead
        have h2 : (NO_SOLAR.head? : Option Char) = some 'N' := rfl
        rw [h2] at hhead
        have hc0 : c0 = 'N' := (Option.some.inj hhead).symm
        have hdig := hh c0 (by rw [hcl0]; rfl)
        rw [hc0] at hdig
        exact absurd hdig (by decide)
  unfold parse_solar_fit_tiers
  rw [if_neg (by push_neg; exact ⟨hne2, hnsolar⟩)]
  rw [hsplit, parseParts_clauses cls vals hden]
  rfl

/-! ### Claim C4: the tier parser's grammar -/

/--
C4: `_parse_solar_fit_tiers` maps a semicolon-joined sequence of clauses
of the two grammar forms to the denoted `(rate, cap)` pairs reordered
capped-first in descending cap order with uncapped tiers last; the empty
string and the "No solar feed-in tariff" sentinel map to the empty list;
and `"10c/kWh (first 8kWh/day); 3c/kWh"` parses to `[(10, 8), (3, 0)]`.
-/
theorem parse_tiers_grammar :
    (∀ (cls : List (List Char × Option (List Char))) (vals : List (ℚ × ℚ)),
        cls ≠ [] → List.Forall₂ ClauseDenotes cls vals →
        parse_solar_fit_tiers (joinSemi (cls.map clauseStr)) = some (sortTiers vals) ∧
        (sortTiers vals).Perm vals ∧ (sortTiers vals).Pairwise TierOrd) ∧
    parse_solar_fit_tiers [] = some [] ∧
    parse_solar_fit_tiers NO_SOLAR = some [] ∧
    parse_solar_fit_tiers "10c/kWh (first 8kWh/day); 3c/kWh".data = some [(10, 8), (3, 0)] := by
  refine ⟨?_, by simp [parse_solar_fit_tiers], by simp [parse_solar_fit_tiers], ?_⟩
  · intro cls vals hne hden
    exact ⟨parse_join_clauses cls vals hne hden, sortTiers_perm vals,
      (sortTiers_pairwise vals).imp (fun h => tierLE_tierOrd _ _ h)⟩
  · simp [parse_solar_fit_tiers, NO_SOLAR, splitSemi, parseParts, parseTierPart, matchClause,
      strip, isSpc, isDigitDot, matchLit, parseNum, digitsVal, charVal, sortTiers, insertTier,
      tierLE, Nat.ofDigits_cons, Nat.ofDigits_nil]

/-- Witness for C4 at the single flat clause "1c/kWh". -/
theorem parse_tiers_grammar_witness :
    parse_solar_fit_tiers (joinSemi ([(['1'], none)].map clauseStr)) =
      some (sortTiers [((1 : ℚ), (0 : ℚ))]) ∧
    (sortTiers [((1 : ℚ), (0 : ℚ))]).Perm [((1 : ℚ), (0 : ℚ))] ∧
    (sortTiers [((1 : ℚ), (0 : ℚ))]).Pairwise TierOrd :=
  parse_tiers_grammar.1 [(['1'], none)] [(1, 0)] (by simp)
    (List.Forall₂.cons
      ⟨show parseNum ['1'] = some 1 by
        have h1 : isDigitDot '1' = true := by decide
        simp [parseNum, digitsVal, charVal, Nat.ofDigits_cons, Nat.ofDigits_nil, h1], rfl⟩
      List.Forall₂.nil)

/-! ### Claim C5: formatter/parser round trip -/

/-- The clauses the formatter writes are exactly the rendered clauses of
its structured tiers. -/
theorem fitClauses_eq (c : Contract) :
    fitClauses c = (formatterTiers c).map tierClause := by
  unfold fitClauses formatterTiers
  rw [List.map_flatten, List.map_map]
  congr 1
  apply List.map_congr_left
  intro fit _
  by_cases hG : fit.type = some "G"
  · simp [hG]
  · simp only [hG, if_false, Function.comp_apply]
    rw [List.map_filterMap]
    apply List.filterMap_congr
    intro sr _
    by_cases hp : (0 : ℚ) < sr.unitPrice.getD 0
    · by_cases hv : (0 : ℚ) < sr.volume.getD 0
      · have hv0 : sr.volume.getD 0 ≠ 0 := ne_of_gt hv
        simp only [hp, if_true, hv, Option.map_some', tierClause, clauseStr, if_neg hv0]
      · simp only [hp, if_true, hv, if_false, Option.map_some', tierClause, clauseStr, if_pos rfl]
    · simp [hp]

/-- When at least one clause exists, the details string is the join of the
clauses. -/
theorem details_eq_join (c : Contract) (hne : fitClauses c ≠ []) :
    extract_solar_fit_details c = joinSemi (fitClauses c) := by
  unfold extract_solar_fit_details
  have h1 : ¬(c.solarFit.isEmpty = true) := by
    intro h
    rw [List.isEmpty_iff] at h
    apply hne
    unfold fitClauses
    rw [h]
    rfl
  rw [if_neg h1, if_neg (by simpa [List.isEmpty_iff] using hne)]

/-- The rendered clause of a decimal tier denotes the tier. -/
theorem denotes_of_isdec :
    ∀ ts : List (ℚ × ℚ), (∀ t ∈ ts, IsDec t.1 ∧ IsDec t.2) →
      List.Forall₂ ClauseDenotes
        (ts.map (fun t => (numStr t.1, if t.2 = 0 then none else some (numStr t.2)))) ts := by
  intro ts
  induction ts with
  | nil => intro _; exact List.Forall₂.nil
  | cons t ts ih =>
    intro h
    obtain ⟨h1, h2⟩ := h t (by simp)
    rw [List.map_cons]
    refine List.Forall₂.cons ?_ (ih (fun x hx => h x (by simp [hx])))
    by_cases hv : t.2 = 0
    · rw [if_pos hv]
      exact ⟨parseNum_numStr t.1 h1, hv⟩
    · rw [if_neg hv]
      exact ⟨parseNum_numStr t.1 h1, parseNum_numStr t.2 h2⟩

/--
C5: for every tier list the formatter can produce from a contract (with
decimal-rendered numbers), applying the tier parser to the formatted
details recovers exactly those `(rate, cap)` pairs, as a permutation
ordered capped-first descending by cap with the uncapped tiers last.
-/
theorem details_parse_roundtrip (c : Contract)
    (hne : formatterTiers c ≠ [])
    (hdec : ∀ t ∈ formatterTiers c, IsDec t.1 ∧ IsDec t.2) :
    parse_solar_fit_tiers (extract_solar_fit_details c) =
      some (sortTiers (formatterTiers c)) ∧
    (sortTiers (formatterTiers c)).Perm (formatterTiers c) ∧
    (sortTiers (formatterTiers c)).Pairwise TierOrd := by
  have hclne : fitClauses c ≠ [] := by
    rw [fitClauses_eq]
    simpa using hne
  have hdetails := details_eq_join c hclne
  have hmap : fitClauses c =
      ((formatterTiers c).map
        (fun t => (numStr t.1, if t.2 = 0 then none else some (numStr t.2)))).map clauseStr := by
    rw [fitClauses_eq, List.map_map]
    rfl
  refine ⟨?_, sortTiers_perm _, (sortTiers_pairwise _).imp (fun h => tierLE_tierOrd _ _ h)⟩
  rw [hdetails, hmap]
  exact parse_join_clauses _ (formatterTiers c) (by simpa using hne)
    (denotes_of_isdec (formatterTiers c) hdec)

/-- Witness for C5 at the one-tier contract (7 c/kWh capped at 2 kWh/day). -/
theorem details_parse_roundtrip_witness :
    parse_solar_fit_tiers (extract_solar_fit_details oneTierContract) =
      some (sortTiers (formatterTiers oneTierContract)) ∧
    (sortTiers (formatterTiers oneTierContract)).Perm (formatterTiers oneTierContract) ∧
    (sortTiers (formatterTiers oneTierContract)).Pairwise TierOrd :=
  details_parse_roundtrip oneTierContract
    (by
      have hRG : ¬("R" : String) = "G" := by decide
      norm_num [formatterTiers, oneTierContract, List.filterMap, hRG])
    (by
      intro t ht
      have hts : formatterTiers oneTierContract = [(7, 2)] := by
        have hRG : ¬("R" : String) = "G" := by decide
        norm_num [formatterTiers, oneTierContract, List.filterMap, hRG]
      rw [hts] at ht
      simp at ht
      rw [ht]
      constructor
      · refine ⟨by norm_num, ?_⟩
        rw [show ((7 : ℚ) * 10 ^ 12) = ((7000000000000 : ℕ) : ℚ) by norm_num]
        exact Rat.den_natCast _
      · refine ⟨by norm_num, ?_⟩
        rw [show ((2 : ℚ) * 10 ^ 12) = ((2000000000000 : ℕ) : ℚ) by norm_num]
        exact Rat.den_natCast _)

end Scraper
